import Mathlib

/-!
Shallow embedding of taskfile2d2's translation engine (d2writer.go and the
D2Writer accumulator).  The program parses a Taskfile YAML document and emits a
D2 diagram as text.

Modelling conventions:
* Go `any` values produced by `yaml.Unmarshal` are modelled by the inductive
  type `Yaml` (strings, integers, booleans, null, sequences, mappings).
* Go maps (`map[string]any`, `map[string]Task`) are modelled as association
  lists carrying the key/value pairs; the list order stands for Go's
  (unspecified) map iteration order.  `Taskfile.Includes` keeps only the keys,
  because the program never reads the include values.
* `uuid.NewString()` is modelled by an external generator `g : Nat → String`
  together with a counter in the run state: the n-th call yields `g n`.  The
  emitted statements record the counter index (`Frag.uuid`), and rendering
  instantiates it with `g`.
* `log.Fatal` and runtime panics terminate the process before `TaskfileToD2`
  can return; they are modelled by `Except.error`.
* The module-global `includesToIncludedTasks` map is modelled by the `Memo`
  component of the run state, passed in at the start of a run (`[]` models a
  fresh process) and returned at the end.
-/

namespace Taskfile2d2

/-- Model of the Go `any` values produced by `yaml.Unmarshal` (d2writer.go uses
strings, numbers, booleans, null, `[]any` and `map[string]any`).  Mappings are
represented with their keys in sorted order (Go maps are unordered, and the
only order-sensitive consumer, `fmt`'s `%#v` verb, prints map keys sorted). -/
inductive Yaml where
  | str (s : String)
  | int (n : Int)
  | bool (b : Bool)
  | null
  | list (xs : List Yaml)
  | map (kvs : List (String × Yaml))

/-- The ways a translation run can terminate without returning a result:
`log.Fatal` calls, failed type assertions (`v.(T)`), the `panic("")` default
branches, and the write into a nil map in `EncapsulatePassedVars`. -/
inductive Err where
  | fatalUnsupportedVersion
  | fatalBothCmdAndCmds
  | panicTypeAssert
  | panicEmptyMessage
  | panicNilMapWrite
deriving DecidableEq

/-- Byte-wise lexicographic comparison of character lists.  `slices.Sorted`
on Go strings compares byte-wise; UTF-8 byte order coincides with code-point
order, so comparing `Char` code points is exact. -/
def lexLe : List Char → List Char → Bool
  | [], _ => true
  | _ :: _, [] => false
  | a :: s, b :: t =>
    if a.toNat < b.toNat then true
    else if b.toNat < a.toNat then false
    else lexLe s t

/-- Go string comparison (`<=` used by `slices.Sorted`). -/
def strLe (a b : String) : Bool := lexLe a.data b.data

/-- `strLe` as a relation. -/
def StrLe (a b : String) : Prop := strLe a b = true

instance : DecidableRel StrLe := fun a b => instDecidableEqBool (strLe a b) true

/-- Model of `slices.Sorted(maps.Keys(m))`: the keys sorted byte-wise. -/
def sortStrings (l : List String) : List String := List.insertionSort StrLe l

/-- A passed variable binding (d2writer.go `Variable`). -/
structure Variable where
  Name : String
  Value : Yaml

/-- A call to a task, with the variable bindings passed along
(d2writer.go `TaskCall`). -/
structure TaskCall where
  TaskName : String
  Vars : List Variable := []

/-- A required-variable declaration (d2writer.go `RequiredVariable`). -/
structure RequiredVariable where
  Name : String
  Enum : List String := []
deriving DecidableEq

/-- The shape of the Go `for ... append` loops over a list with a possible
mid-loop fatal exit: apply `g` to each element in order, stopping at the
first failure. -/
def mapE {α β : Type} (g : α → Except Err β) : List α → Except Err (List β)
  | [] => .ok []
  | a :: t => do
    let b ← g a
    let bs ← mapE g t
    .ok (b :: bs)

/-- d2writer.go `Task`.  Field defaults are the Go zero values left by
`yaml.Unmarshal` when a key is absent. -/
structure Task where
  Desc : String := ""
  Summary : String := ""
  Silent : Bool := false
  Internal : Bool := false
  RequiresVars : List Yaml := []
  Vars : List (String × Yaml) := []
  Deps : List Yaml := []
  Cmd : Option Yaml := none
  Cmds : Option (List Yaml) := none

/-- d2writer.go `Taskfile`.  `Includes` models the `map[string]any` of
includes: the program only ever reads its keys, listed here in Go's map
iteration order.  `Tasks` is the task mapping as an association list. -/
structure Taskfile where
  Includes : List String := []
  Version : String := ""
  Vars : List (String × Yaml) := []
  Tasks : List (String × Task) := []

/-- `Taskfile.GetIncludes` ranges over the includes map and collects the keys;
the model's `Includes` field is exactly that key sequence. -/
def Taskfile.GetIncludes (tf : Taskfile) : List String := tf.Includes

/-- The `vars` sub-mapping of a dependency or call entry, iterated over
`slices.Sorted(maps.Keys(passedVars))` with the value looked up per key
(`Yaml.null` stands for Go's zero `any`, unreachable for well-formed maps). -/
def varsFromMap (kvs : List (String × Yaml)) : List Variable :=
  (sortStrings (kvs.map Prod.fst)).map fun nm => ⟨nm, (List.lookup nm kvs).getD Yaml.null⟩

/-- One entry of `Task.Deps` as processed by `Task.GetDepCalls`: a bare string,
or a mapping whose `task` key must assert to a string (`dep["task"].(string)`),
with optional `vars`; any other shape hits `panic("")`. -/
def depCallOfEntry (dep : Yaml) : Except Err TaskCall :=
  match dep with
  | .str s => .ok ⟨s, []⟩
  | .map kvs =>
    match List.lookup "task" kvs with
    | some (.str tn) =>
      match List.lookup "vars" kvs with
      | some (.map m) => .ok ⟨tn, varsFromMap m⟩
      | _ => .ok ⟨tn, []⟩
    | _ => .error .panicTypeAssert
  | _ => .error .panicEmptyMessage

/-- d2writer.go `Task.GetDepCalls`. -/
def Task.GetDepCalls (t : Task) : Except Err (List TaskCall) :=
  mapE depCallOfEntry t.Deps

/-- d2writer.go `Task.GetCmds`: fatal if both `cmd` and `cmds` are set,
otherwise the one-element list around `cmd` or the `cmds` list (`nil` slice of
an absent `cmds` iterates as empty). -/
def Task.GetCmds (t : Task) : Except Err (List Yaml) :=
  if t.Cmd.isSome && t.Cmds.isSome then .error .fatalBothCmdAndCmds
  else match t.Cmd with
  | none => .ok (t.Cmds.getD [])
  | some c => .ok [c]

/-- One command entry as inspected by `Task.GetCalls`: kept only when it is a
mapping whose `task` key holds a string (comma-ok assertions, no panic). -/
def callOfCmd (cmd : Yaml) : Option TaskCall :=
  match cmd with
  | .map kvs =>
    match List.lookup "task" kvs with
    | some (.str tn) =>
      match List.lookup "vars" kvs with
      | some (.map m) => some ⟨tn, varsFromMap m⟩
      | _ => some ⟨tn, []⟩
    | _ => none
  | _ => none

/-- d2writer.go `Task.GetCalls`. -/
def Task.GetCalls (t : Task) : Except Err (List TaskCall) :=
  t.GetCmds.map fun cmds => cmds.filterMap callOfCmd

/-- The `enum.(string)` assertion applied to each enum entry. -/
def strAssert : Yaml → Except Err String
  | .str s => .ok s
  | _ => .error .panicTypeAssert

/-- One entry of `requires.vars` as processed by `Task.GetRequiredVars`:
a bare string, or a mapping whose `name` key must assert to a string and whose
`enum` key must assert to `[]any` of strings (a missing or non-list `enum`
fails the `variable["enum"].([]any)` assertion); other shapes hit `panic("")`. -/
def reqVarOfEntry (v : Yaml) : Except Err RequiredVariable :=
  match v with
  | .str s => .ok ⟨s, []⟩
  | .map kvs =>
    match List.lookup "name" kvs with
    | some (.str nm) =>
      match List.lookup "enum" kvs with
      | some (.list es) => (mapE strAssert es).map fun ss => ⟨nm, ss⟩
      | _ => .error .panicTypeAssert
    | _ => .error .panicTypeAssert
  | _ => .error .panicEmptyMessage

/-- d2writer.go `Task.GetRequiredVars`. -/
def Task.GetRequiredVars (t : Task) : Except Err (List RequiredVariable) :=
  mapE reqVarOfEntry t.RequiresVars

/-- Go-syntax quoting of a string as printed by `fmt`'s `%#v` verb
(exact for printable characters; the common escapes are covered). -/
def goQuoteChar (c : Char) : String :=
  if c.toNat = 92 then "\\\\"
  else if c.toNat = 34 then "\\\""
  else if c = '\n' then "\\n"
  else if c = '\t' then "\\t"
  else if c = '\r' then "\\r"
  else String.singleton c

/-- Go `strconv`-style quoted form of a string, as `%#v` prints it. -/
def goQuote (s : String) : String := "\"" ++ String.join (s.data.map goQuoteChar) ++ "\""

mutual

/-- The verbose Go-syntax rendering `fmt.Sprintf("%#v", v)` of a value nested
inside a composite (`%#v` prints map keys in sorted order; `Yaml.map`
association lists carry their keys already sorted, see `Yaml`). -/
def goRepr : Yaml → String
  | .str s => goQuote s
  | .int n => toString n
  | .bool b => if b then "true" else "false"
  | .null => "interface \x7b\x7d(nil)"
  | .list xs => "[]interface \x7b\x7d\x7b" ++ goReprList xs ++ "\x7d"
  | .map kvs => "map[string]interface \x7b\x7d\x7b" ++ goReprMap kvs ++ "\x7d"

/-- Comma-separated `%#v` forms of a sequence's elements. -/
def goReprList : List Yaml → String
  | [] => ""
  | [x] => goRepr x
  | x :: y :: xs => goRepr x ++ ", " ++ goReprList (y :: xs)

/-- Comma-separated `"key":value` forms of a mapping's entries. -/
def goReprMap : List (String × Yaml) → String
  | [] => ""
  | [(k, v)] => goQuote k ++ ":" ++ goRepr v
  | (k, v) :: x :: xs => goQuote k ++ ":" ++ goRepr v ++ ", " ++ goReprMap (x :: xs)

end

/-- `fmt.Sprintf("%#v", value)` at top level: a nil `any` prints `<nil>`. -/
def goReprTop : Yaml → String
  | .null => "<nil>"
  | v => goRepr v

/-- The `strings.NewReplacer("'", "\\'", "\"", "\\\"", "{", "\\{", "}", "\\}")`
escaping applied to a passed value's display form (all patterns are single
characters, so character-wise replacement is exact). -/
def escapeD2Char (c : Char) : String :=
  if c.toNat = 39 then "\\'"
  else if c.toNat = 34 then "\\\""
  else if c.toNat = 123 then "\\\x7b"
  else if c.toNat = 125 then "\\\x7d"
  else String.singleton c

/-- `Replacer.Replace` over the whole string. -/
def escapeD2 (s : String) : String := String.join (s.data.map escapeD2Char)

/-- `strings.ReplaceAll(taskCall.TaskName, ":", "'.'")`: namespaced call
targets become D2 nested-container addresses. -/
def replaceColons (s : String) : String :=
  String.join (s.data.map fun c => if c = ':' then "'.'" else String.singleton c)

/-- `strings.Contains(taskCall.TaskName, ":")`. -/
def hasColon (s : String) : Bool := s.data.any fun c => c = ':'

/-- First chunk of `strings.SplitN(name, ":", 2)`: the include namespace. -/
def nsOf (s : String) : String := ⟨s.data.takeWhile fun c => c ≠ ':'⟩

/-- Second chunk of `strings.SplitN(name, ":", 2)`: everything after the
first colon. -/
def subOf (s : String) : String := ⟨(s.data.dropWhile fun c => c ≠ ':').tail⟩

/-- d2writer.go icon constant. -/
def externalTaskIconName : String := "externalTaskIcon"

/-- d2writer.go icon constant. -/
def internalTaskIconName : String := "internalTaskIcon"

/-- d2writer.go icon constant. -/
def unknownTaskIconName : String := "unknownTaskIcon"

/-- d2writer.go icon constant. -/
def varIconName : String := "varIcon"

/-- d2writer.go icon constant. -/
def includedTaskfileIconName : String := "includedTaskfileIcon"

/-- Embedded data URI of the external-task icon (d2writer.go, `TaskfileToD2`). -/
def externalTaskIconURI : String := "data:image/svg+xml,%3C%3Fxml version='1.0' encoding='utf-8'%3F%3E%3Csvg fill='%23000000' width='800px' height='800px' viewBox='0 0 24 24' xmlns='http://www.w3.org/2000/svg'%3E%3Cpath d='M5 22h14c1.103 0 2-.897 2-2V5c0-1.103-.897-2-2-2h-2a1 1 0 0 0-1-1H8a1 1 0 0 0-1 1H5c-1.103 0-2 .897-2 2v15c0 1.103.897 2 2 2zM5 5h2v2h10V5h2v15H5V5z'/%3E%3Cpath d='m11 13.586-1.793-1.793-1.414 1.414L11 16.414l5.207-5.207-1.414-1.414z'/%3E%3C/svg%3E"

/-- Embedded data URI of the internal-task icon (d2writer.go, `TaskfileToD2`). -/
def internalTaskIconURI : String := "data:image/svg+xml,%3C%3Fxml version='1.0' encoding='utf-8'%3F%3E%3Csvg fill='%23000000' width='800px' height='800px' viewBox='0 0 24 24' xmlns='http://www.w3.org/2000/svg'%3E%3Cpath d='M3 20c0 1.103.897 2 2 2h14c1.103 0 2-.897 2-2V5c0-1.103-.897-2-2-2h-2a1 1 0 0 0-1-1H8a1 1 0 0 0-1 1H5c-1.103 0-2 .897-2 2v15zM5 5h2v2h10V5h2v15H5V5z'/%3E%3Cpath d='M14.292 10.295 12 12.587l-2.292-2.292-1.414 1.414 2.292 2.292-2.292 2.292 1.414 1.414L12 15.415l2.292 2.292 1.414-1.414-2.292-2.292 2.292-2.292z'/%3E%3C/svg%3E"

/-- Embedded data URI of the unknown-task icon (d2writer.go, `TaskfileToD2`). -/
def unknownTaskIconURI : String := "data:image/svg+xml,%3C%3Fxml version='1.0' encoding='utf-8'%3F%3E%3Csvg width='800px' height='800px' viewBox='0 0 24 24' fill='none' xmlns='http://www.w3.org/2000/svg'%3E%3Cpath fill-rule='evenodd' clip-rule='evenodd' d='M9.29289 1.29289C9.48043 1.10536 9.73478 1 10 1H18C19.6569 1 21 2.34315 21 4V7C21 7.55228 20.5523 8 20 8C19.4477 8 19 7.55228 19 7V4C19 3.44772 18.5523 3 18 3H11V8C11 8.55228 10.5523 9 10 9H5V20C5 20.5523 5.44772 21 6 21H11C11.5523 21 12 21.4477 12 22C12 22.5523 11.5523 23 11 23H6C4.34315 23 3 21.6569 3 20V8C3 7.73478 3.10536 7.48043 3.29289 7.29289L9.29289 1.29289ZM6.41421 7H9V4.41421L6.41421 7ZM18.25 20.75C18.25 21.4404 17.6904 22 17 22C16.3096 22 15.75 21.4404 15.75 20.75C15.75 20.0596 16.3096 19.5 17 19.5C17.6904 19.5 18.25 20.0596 18.25 20.75ZM15.1353 12.9643C15.3999 12.4596 16.0831 12 17 12C18.283 12 19 12.8345 19 13.5C19 14.1655 18.283 15 17 15C16.4477 15 16 15.4477 16 16V17C16 17.5523 16.4477 18 17 18C17.5523 18 18 17.5523 18 17V16.8866C19.6316 16.5135 21 15.2471 21 13.5C21 11.404 19.0307 10 17 10C15.4566 10 14.0252 10.7745 13.364 12.0357C13.1075 12.5248 13.2962 13.1292 13.7853 13.3857C14.2744 13.6421 14.8788 13.4535 15.1353 12.9643Z' fill='%23000000'/%3E%3C/svg%3E"

/-- Embedded data URI of the variable icon (d2writer.go, `TaskfileToD2`). -/
def varIconURI : String := "data:image/svg+xml,%3C%3Fxml%20version%3D%221.0%22%20encoding%3D%22iso-8859-1%22%3F%3E%0A%0A%3Csvg%20version%3D%221.1%22%20id%3D%22Capa_1%22%20xmlns%3D%22http%3A%2F%2Fwww.w3.org%2F2000%2Fsvg%22%20xmlns%3Axlink%3D%22http%3A%2F%2Fwww.w3.org%2F1999%2Fxlink%22%20x%3D%220px%22%20y%3D%220px%22%0A%09%20viewBox%3D%220%200%20512%20512%22%20style%3D%22enable-background%3Anew%200%200%20512%20512%3B%22%20xml%3Aspace%3D%22preserve%22%3E%0A%3Cpath%20style%3D%22fill%3A%23ECECF1%3B%22%20d%3D%22M421%2C0H91C49.6%2C0%2C16%2C33.6%2C16%2C75v362c0%2C41.4%2C33.6%2C75%2C75%2C75h330c41.4%2C0%2C75-33.6%2C75-75V75%0A%09C496%2C33.6%2C462.4%2C0%2C421%2C0z%22%2F%3E%0A%3Cpath%20style%3D%22fill%3A%23E2E2E7%3B%22%20d%3D%22M496%2C75v362c0%2C41.4-33.6%2C75-75%2C75H256V0h165C462.4%2C0%2C496%2C33.6%2C496%2C75z%22%2F%3E%0A%3Cpath%20style%3D%22fill%3A%235A5A5A%3B%22%20d%3D%22M136%2C75v362c0%2C8.401-6.599%2C15-15%2C15s-15-6.599-15-15V75c0-8.401%2C6.599-15%2C15-15S136%2C66.599%2C136%2C75z%22%0A%09%2F%3E%0A%3Cpath%20style%3D%22fill%3A%23444444%3B%22%20d%3D%22M136%2C75v362c0%2C8.401-6.599%2C15-15%2C15V60C129.401%2C60%2C136%2C66.599%2C136%2C75z%22%2F%3E%0A%3Cpath%20style%3D%22fill%3A%235A5A5A%3B%22%20d%3D%22M226%2C75v362c0%2C8.401-6.599%2C15-15%2C15s-15-6.599-15-15V75c0-8.401%2C6.599-15%2C15-15S226%2C66.599%2C226%2C75z%22%0A%09%2F%3E%0A%3Cpath%20style%3D%22fill%3A%23444444%3B%22%20d%3D%22M226%2C75v362c0%2C8.401-6.599%2C15-15%2C15V60C219.401%2C60%2C226%2C66.599%2C226%2C75z%22%2F%3E%0A%3Cpath%20style%3D%22fill%3A%235A5A5A%3B%22%20d%3D%22M316%2C75v362c0%2C8.401-6.599%2C15-15%2C15s-15-6.599-15-15V75c0-8.401%2C6.599-15%2C15-15S316%2C66.599%2C316%2C75z%22%0A%09%2F%3E%0A%3Cpath%20style%3D%22fill%3A%23444444%3B%22%20d%3D%22M316%2C75v362c0%2C8.401-6.599%2C15-15%2C15V60C309.401%2C60%2C316%2C66.599%2C316%2C75z%22%2F%3E%0A%3Cpath%20style%3D%22fill%3A%235A5A5A%3B%22%20d%3D%22M406%2C75v362c0%2C8.401-6.599%2C15-15%2C15s-15-6.599-15-15V75c0-8.401%2C6.599-15%2C15-15S406%2C66.599%2C406%2C75z%22%0A%09%2F%3E%0A%3Cpath%20style%3D%22fill%3A%23444444%3B%22%20d%3D%22M406%2C75v362c0%2C8.401-6.599%2C15-15%2C15V60C399.401%2C60%2C406%2C66.599%2C406%2C75z%22%2F%3E%0A%3Cpath%20style%3D%22fill%3A%23FF7816%3B%22%20d%3D%22M121%2C241c-24.901%2C0-45%2C21.099-45%2C46s20.099%2C45%2C45%2C45s45-20.099%2C45-45S145.901%2C241%2C121%2C241z%22%2F%3E%0A%3Cpath%20style%3D%22fill%3A%23FF4B00%3B%22%20d%3D%22M166%2C287c0%2C24.901-20.099%2C45-45%2C45v-91C145.901%2C241%2C166%2C262.099%2C166%2C287z%22%2F%3E%0A%3Cpath%20style%3D%22fill%3A%23FF7816%3B%22%20d%3D%22M391%2C90c-24.901%2C0-45%2C20.099-45%2C45s20.099%2C45%2C45%2C45s45-20.099%2C45-45S415.901%2C90%2C391%2C90z%22%2F%3E%0A%3Cpath%20style%3D%22fill%3A%23FF4B00%3B%22%20d%3D%22M436%2C135c0%2C24.901-20.099%2C45-45%2C45V90C415.901%2C90%2C436%2C110.099%2C436%2C135z%22%2F%3E%0A%3Cpath%20style%3D%22fill%3A%23FF7816%3B%22%20d%3D%22M301%2C332c-24.901%2C0-45%2C20.099-45%2C45s20.099%2C45%2C45%2C45s45-20.099%2C45-45S325.901%2C332%2C301%2C332z%22%2F%3E%0A%3Cpath%20style%3D%22fill%3A%23FF4B00%3B%22%20d%3D%22M346%2C377c0%2C24.901-20.099%2C45-45%2C45v-90C325.901%2C332%2C346%2C352.099%2C346%2C377z%22%2F%3E%0A%3Cpath%20style%3D%22fill%3A%23FF7816%3B%22%20d%3D%22M211%2C120c-24.901%2C0-45%2C20.099-45%2C45s20.099%2C45%2C45%2C45s45-20.099%2C45-45S235.901%2C120%2C211%2C120z%22%2F%3E%0A%3Cpath%20style%3D%22fill%3A%23FF4B00%3B%22%20d%3D%22M256%2C165c0%2C24.901-20.099%2C45-45%2C45v-90C235.901%2C120%2C256%2C140.099%2C256%2C165z%22%2F%3E%0A%3Cg%3E%0A%3C%2Fg%3E%0A%3Cg%3E%0A%3C%2Fg%3E%0A%3Cg%3E%0A%3C%2Fg%3E%0A%3Cg%3E%0A%3C%2Fg%3E%0A%3Cg%3E%0A%3C%2Fg%3E%0A%3Cg%3E%0A%3C%2Fg%3E%0A%3Cg%3E%0A%3C%2Fg%3E%0A%3Cg%3E%0A%3C%2Fg%3E%0A%3Cg%3E%0A%3C%2Fg%3E%0A%3Cg%3E%0A%3C%2Fg%3E%0A%3Cg%3E%0A%3C%2Fg%3E%0A%3Cg%3E%0A%3C%2Fg%3E%0A%3Cg%3E%0A%3C%2Fg%3E%0A%3Cg%3E%0A%3C%2Fg%3E%0A%3Cg%3E%0A%3C%2Fg%3E%0A%3C%2Fsvg%3E%0A"

/-- Embedded data URI of the included-taskfile icon (d2writer.go, `TaskfileToD2`). -/
def includedTaskfileIconURI : String := "data:image/svg+xml,%3C%3Fxml version='1.0' encoding='utf-8'%3F%3E%3Csvg width='800px' height='800px' viewBox='0 0 24 24' fill='none' xmlns='http://www.w3.org/2000/svg'%3E%3Cpath d='M3 5.25C3 4.00736 4.00736 3 5.25 3H18.75C19.9926 3 21 4.00736 21 5.25V12.0218C20.5368 11.7253 20.0335 11.4858 19.5 11.3135V5.25C19.5 4.83579 19.1642 4.5 18.75 4.5H5.25C4.83579 4.5 4.5 4.83579 4.5 5.25V18.75C4.5 19.1642 4.83579 19.5 5.25 19.5H11.3135C11.4858 20.0335 11.7253 20.5368 12.0218 21H5.25C4.00736 21 3 19.9926 3 18.75V5.25Z' fill='%23212121'/%3E%3Cpath d='M10.7803 7.71967C11.0732 8.01256 11.0732 8.48744 10.7803 8.78033L8.78033 10.7803C8.48744 11.0732 8.01256 11.0732 7.71967 10.7803L6.71967 9.78033C6.42678 9.48744 6.42678 9.01256 6.71967 8.71967C7.01256 8.42678 7.48744 8.42678 7.78033 8.71967L8.25 9.18934L9.71967 7.71967C10.0126 7.42678 10.4874 7.42678 10.7803 7.71967Z' fill='%23212121'/%3E%3Cpath d='M10.7803 13.2197C11.0732 13.5126 11.0732 13.9874 10.7803 14.2803L8.78033 16.2803C8.48744 16.5732 8.01256 16.5732 7.71967 16.2803L6.71967 15.2803C6.42678 14.9874 6.42678 14.5126 6.71967 14.2197C7.01256 13.9268 7.48744 13.9268 7.78033 14.2197L8.25 14.6893L9.71967 13.2197C10.0126 12.9268 10.4874 12.9268 10.7803 13.2197Z' fill='%23212121'/%3E%3Cpath d='M17.5 12C20.5376 12 23 14.4624 23 17.5C23 20.5376 20.5376 23 17.5 23C14.4624 23 12 20.5376 12 17.5C12 14.4624 14.4624 12 17.5 12ZM18.0011 20.5035L18.0006 18H20.503C20.7792 18 21.003 17.7762 21.003 17.5C21.003 17.2239 20.7792 17 20.503 17H18.0005L18 14.4993C18 14.2231 17.7761 13.9993 17.5 13.9993C17.2239 13.9993 17 14.2231 17 14.4993L17.0005 17H14.4961C14.22 17 13.9961 17.2239 13.9961 17.5C13.9961 17.7762 14.22 18 14.4961 18H17.0006L17.0011 20.5035C17.0011 20.7797 17.225 21.0035 17.5011 21.0035C17.7773 21.0035 18.0011 20.7797 18.0011 20.5035Z' fill='%23212121'/%3E%3Cpath d='M13.25 8.5C12.8358 8.5 12.5 8.83579 12.5 9.25C12.5 9.66421 12.8358 10 13.25 10H16.75C17.1642 10 17.5 9.66421 17.5 9.25C17.5 8.83579 17.1642 8.5 16.75 8.5H13.25Z' fill='%23212121'/%3E%3C/svg%3E"

/-- The `vars` block value: the Go format string filled with the five icon
names and data URIs, exactly as `fmt.Sprintf` produces it. -/
def d2VarsText : String :=
  "\x7b\n  " ++ externalTaskIconName ++ ": " ++ externalTaskIconURI
  ++ "\n  " ++ internalTaskIconName ++ ": " ++ internalTaskIconURI
  ++ "\n  " ++ unknownTaskIconName ++ ": " ++ unknownTaskIconURI
  ++ "\n  " ++ varIconName ++ ": " ++ varIconURI
  ++ "\n  " ++ includedTaskfileIconName ++ ": " ++ includedTaskfileIconURI
  ++ "\n\x7d"

/-- The legend block body: the Go format string of d2writer.go line 298 with the five icon-name placeholders filled in, exactly as `fmt.Sprintf` produces it. -/
def legendText : String :=
  "Legend \x7b\n  **.style: \x7b\n    font-size: 30\n    bold: true\n  \x7d\n  near: top-center\n  style.3d: true\n  subLegend1: \"\" \x7b\n    style.opacity: 0\n    grid-columns: 4\n    grid-rows: 2\n    icon1: Variable \x7b\n      shape: image\n      icon: $\x7b"
  ++ varIconName
  ++ "\x7d\n    \x7d\n    icon1Description: |md\n      Variables are passed to tasks\n    |\n    icon2: External Task \x7b\n      shape: image\n      icon: $\x7b"
  ++ externalTaskIconName
  ++ "\x7d\n    \x7d\n    icon2Description: |md\n      Tasks that can be called\\\n      directly by the Task CLI tool.\n    |\n    icon3: Internal Task \x7b\n      shape: image\n      icon: $\x7b"
  ++ internalTaskIconName
  ++ "\x7d\n    \x7d\n    icon3Description: |md\n      Tasks that can NOT be called\\\n      directly by the Task CLI tool.\n    |\n    icon4: Unknown Task \x7b\n      shape: image\n      icon: $\x7b"
  ++ unknownTaskIconName
  ++ "\x7d\n    \x7d\n    icon4Description: |md\n      It is not possible to identify the origin of these\\\n      tasks as they are\n      - a dynamically named task using template variable(s)\\\n        **or**\n      - a task in another imported Taskfile\n    |\n    icon5: Included Taskfile \x7b\n      shape: image\n      icon: $\x7b"
  ++ includedTaskfileIconName
  ++ "\x7d\n    \x7d\n    icon5Description: |md\n      Container for tasks that are included from other Taskfiles\n    |\n  \x7d\n  subLegend2: Silent Task \x7b\n    style: \x7b\n      fill: grey\n    \x7d\n    description: |md\n      Tasks that do NOT print their template resolution (**silent: true**).\n      - This makes sure that **template resolution does not expose secret** variables\n      - There could be other, less important reasons why a template resolution is not printed to the screen\n    |\n  \x7d\n\x7d"

/-- Trailing global-style block written at the end of `TaskfileToD2`. -/
def trailerEdgeStyleText : String := "\x7b\n  stroke-width: 4\n  font-size: 25\n  bold: true\n\x7d"

/-- Trailing global-style block written at the end of `TaskfileToD2`. -/
def trailerRequiredByText : String := "\x7b\n  &label: required by\n  style \x7b\n    stroke: red\n    stroke-dash: 3\n  \x7d\n\x7d"

/-- Trailing global-style block written at the end of `TaskfileToD2`. -/
def trailerCallsDepText : String := "\x7b\n  &label: calls as dependency\n  style \x7b\n    stroke: green\n  \x7d\n\x7d"

/-- Trailing global-style block written at the end of `TaskfileToD2`. -/
def trailerStarText : String := "\x7b\n  !&shape: image\n  style.bold: true\n  style.font-size: 30\n\x7d"

/-- Trailing global-style block written at the end of `TaskfileToD2`. -/
def trailerIconNearText : String := "\x7b\n  near: bottom-center\n\x7d"

/-- Trailing global-style block written at the end of `TaskfileToD2`. -/
def trailerTextStyleText : String := "\x7b\n  &shape: text\n  style.font-size: 20\n  style.bold: true\n\x7d"

/-- One statement appended to the `D2Writer`.  Each constructor corresponds to
one `d2Writer.Write` call site of d2writer.go; `Stmt.render` reproduces the
exact `fmt.Sprintf` text, with `uuid.NewString()` results represented by their
generation index. -/
inductive Stmt where
  | varsDecl
  | legend (u : Nat)
  | includeIcon (name : String)
  | taskText (name md : String)
  | taskSilentFill (name : String)
  | taskIcon (name icon : String)
  | reqVarNode (name label : String)
  | reqVarEdge (varName taskName : String)
  | directEdge (src dst label : String)
  | withEdgeIn (src : String) (u : Nat) (label : String)
  | withEdgeOut (u : Nat) (dst label : String)
  | withNode (u : Nat)
  | passedVarIcon (u : Nat) (varName : String)
  | passedValText (u vu : Nat) (text : String)
  | passedSetEdge (u : Nat) (varName : String) (vu : Nat)
  | unknownIcon (dst : String)
  | trailerEdgeStyle
  | trailerRequiredBy
  | trailerCallsDep
  | trailerStar
  | trailerIconNear
  | trailerTextStyle
deriving DecidableEq

/-- A fragment of one output line: literal text, or the n-th generated
unique identifier. -/
inductive Frag where
  | txt (s : String)
  | uuid (n : Nat)
deriving DecidableEq

/-- The `key: value` (or bare-key) line a statement contributes to the
`D2Writer`, with generated identifiers left symbolic. -/
def Stmt.render : Stmt → List Frag
  | .varsDecl => [.txt ("vars: " ++ d2VarsText)]
  | .legend u => [.uuid u, .txt (": " ++ legendText)]
  | .includeIcon name =>
    [.txt ("'" ++ name ++ "'.icon: $\x7b" ++ includedTaskfileIconName ++ "\x7d")]
  | .taskText name md => [.txt ("'" ++ name ++ "'.Text: |md\n" ++ md ++ "|")]
  | .taskSilentFill name => [.txt ("'" ++ name ++ "'.style.fill: grey")]
  | .taskIcon name icon => [.txt ("'" ++ name ++ "'.icon: $\x7b" ++ icon ++ "\x7d")]
  | .reqVarNode name label =>
    [.txt ("'" ++ name ++ "': " ++ label ++ " \x7bshape: image; icon: $\x7b" ++ varIconName ++ "\x7d\x7d")]
  | .reqVarEdge v t => [.txt ("'" ++ v ++ "' -> '" ++ t ++ "': required by")]
  | .directEdge src dst label => [.txt ("'" ++ src ++ "' -> '" ++ dst ++ "': " ++ label)]
  | .withEdgeIn src u label => [.txt ("'" ++ src ++ "' -> "), .uuid u, .txt (": " ++ label)]
  | .withEdgeOut u dst label => [.uuid u, .txt (" -> '" ++ dst ++ "': " ++ label)]
  | .withNode u => [.uuid u, .txt ": With \x7bshape: parallelogram; style.stroke-dash: 3\x7d"]
  | .passedVarIcon u v =>
    [.uuid u, .txt (".'" ++ v ++ "': \x7bshape: image; icon: $\x7b" ++ varIconName ++ "\x7d\x7d")]
  | .passedValText u vu text => [.uuid u, .txt ".", .uuid vu, .txt (": " ++ text ++ " \x7bshape: text\x7d")]
  | .passedSetEdge u v vu => [.uuid u, .txt (".'" ++ v ++ "' -> "), .uuid u, .txt ".", .uuid vu, .txt ": set to"]
  | .unknownIcon dst => [.txt ("'" ++ dst ++ "'.icon: $\x7b" ++ unknownTaskIconName ++ "\x7d")]
  | .trailerEdgeStyle => [.txt ("(** -> **)[*].style: " ++ trailerEdgeStyleText)]
  | .trailerRequiredBy => [.txt ("(** -> **)[*]: " ++ trailerRequiredByText)]
  | .trailerCallsDep => [.txt ("(** -> **)[*]: " ++ trailerCallsDepText)]
  | .trailerStar => [.txt ("*: " ++ trailerStarText)]
  | .trailerIconNear => [.txt ("**.icon: " ++ trailerIconNearText)]
  | .trailerTextStyle => [.txt ("**: " ++ trailerTextStyleText)]

/-- Instantiate a fragment with a concrete identifier generator. -/
def renderFrag (g : Nat → String) : Frag → String
  | .txt s => s
  | .uuid n => g n

/-- Instantiate one line. -/
def renderLine (g : Nat → String) (l : List Frag) : String :=
  String.join (l.map (renderFrag g))

/-- `D2Writer.String()`: the statement lines joined by newlines, in append
order, with identifiers instantiated by `g`. -/
def renderDoc (g : Nat → String) (doc : List Stmt) : String :=
  String.intercalate "\n" (doc.map fun s => renderLine g s.render)

/-- A canonical generator used to normalize generated identifiers away:
every identifier is replaced by a placeholder determined by its index. -/
def canonGen (n : Nat) : String := "<uuid #" ++ toString n ++ ">"

/-- The module-global `includesToIncludedTasks : map[string]map[string]struct{}`,
as an association list from include namespace to the list of sub-task names
already annotated.  A key that is absent models a namespace whose inner map is
the nil map. -/
abbrev Memo := List (String × List String)

/-- Assignment `m[k] = v` on the outer (non-nil) map. -/
def setM (k : String) (v : List String) : Memo → Memo
  | [] => [(k, v)]
  | (k', v') :: t => if k' = k then (k, v) :: t else (k', v') :: setM k v t

/-- The mutable state of one translation run: the `uuid.NewString()` call
counter, the module-global memo, and the `D2Writer.data` statement list. -/
structure RunState where
  cnt : Nat
  memo : Memo
  out : List Stmt

/-- `d2Writer.Write(...)`: append one statement. -/
def W (st : RunState) (s : Stmt) : RunState := { st with out := st.out ++ [s] }

/-- The `for _, passedVar := range taskCall.Vars` loop of
`EncapsulatePassedVars`: per variable, write the variable-icon node, generate
a fresh identifier for the value node, write the escaped `%#v` text of the
value, and write the "set to" edge. -/
def emitVars (u : Nat) (st : RunState) : List Variable → RunState
  | [] => st
  | v :: vs =>
    let escaped := escapeD2 (goReprTop v.Value)
    let st1 := W st (.passedVarIcon u v.Name)
    let vu := st1.cnt
    let st2 := { W st1 (.passedValText u vu escaped) with cnt := st1.cnt + 1 }
    let st3 := W st2 (.passedSetEdge u v.Name vu)
    emitVars u st3 vs

/-- First half of d2writer.go `EncapsulatePassedVars` (lines 485-499): the
single labeled edge when no variables are passed, otherwise the fresh "With"
container with its two edges and the per-variable loop. -/
def encBody (st : RunState) (taskName : String) (taskCall : TaskCall)
    (firstConnectionValue secondConnectionValue : String) : RunState :=
  let calledD2TaskName := replaceColons taskCall.TaskName
  if taskCall.Vars.isEmpty then
    W st (.directEdge taskName calledD2TaskName firstConnectionValue)
  else
    let u := st.cnt
    let sta := { st with cnt := st.cnt + 1 }
    let stb := W sta (.withEdgeIn taskName u firstConnectionValue)
    let stc := W stb (.withEdgeOut u calledD2TaskName secondConnectionValue)
    let std := W stc (.withNode u)
    emitVars u std taskCall.Vars

/-- d2writer.go `EncapsulatePassedVars`: emit the edge (or the intermediate
"With" container when variables are passed), then classify the call target:
a namespaced target consults and updates the memo (a write into the nil map of
an uninitialized namespace panics); a flat target absent from the task mapping
gets the unknown-task icon unconditionally. -/
def EncapsulatePassedVars (tf : Taskfile) (st : RunState) (taskName : String)
    (taskCall : TaskCall) (firstConnectionValue secondConnectionValue : String) :
    Except Err RunState :=
  let calledD2TaskName := replaceColons taskCall.TaskName
  let st1 := encBody st taskName taskCall firstConnectionValue secondConnectionValue
  if hasColon taskCall.TaskName then
    let ns := nsOf taskCall.TaskName
    let sub := subOf taskCall.TaskName
    match List.lookup ns st1.memo with
    | none => .error .panicNilMapWrite
    | some includedTasks =>
      if includedTasks.contains sub then .ok st1
      else .ok (W { st1 with memo := setM ns (includedTasks ++ [sub]) st1.memo }
        (.unknownIcon calledD2TaskName))
  else if (List.lookup calledD2TaskName tf.Tasks).isSome then .ok st1
  else .ok (W st1 (.unknownIcon calledD2TaskName))

/-- The arguments of one `EncapsulatePassedVars` invocation. -/
structure EncArgs where
  taskName : String
  call : TaskCall
  fstLabel : String
  sndLabel : String

/-- A sequence of `EncapsulatePassedVars` invocations (the dependency loop and
the inline-call loop of `TaskfileToD2` both have this form). -/
def runEnc (tf : Taskfile) (st : RunState) : List EncArgs → Except Err RunState
  | [] => .ok st
  | a :: rest => do
    let st' ← EncapsulatePassedVars tf st a.taskName a.call a.fstLabel a.sndLabel
    runEnc tf st' rest

/-- Second-edge label of dependency calls (d2writer.go line 405). -/
def depSecondLabel : String := "passed to \x7bstyle \x7bstroke-dash: 3; stroke: green\x7d\x7d"

/-- Second-edge label of inline calls (d2writer.go line 412). -/
def callSecondLabel : String := "passed to \x7bstyle.stroke-dash: 3\x7d"

/-- The label of a required-variable node: the bare name, or
`"name\n[v1, v2]"` (with a literal backslash-n) when an enum is present. -/
def reqVarLabel (rv : RequiredVariable) : String :=
  if rv.Enum.isEmpty then rv.Name
  else "\"" ++ rv.Name ++ "\\n[" ++ String.intercalate ", " rv.Enum ++ "]\""

/-- The markdown body of a task's Text node (Description then Summary). -/
def taskMarkdown (t : Task) : String :=
  (if t.Desc ≠ "" then "## Description\n" ++ t.Desc ++ "\n" else "")
  ++ (if t.Summary ≠ "" then "## Summary\n" ++ t.Summary ++ "\n" else "")

/-- The task looked up in the task mapping (`taskfile.Tasks[taskName]`; the
Go map index yields the zero-value `Task` for an absent key). -/
def taskOf (tf : Taskfile) (taskName : String) : Task :=
  (List.lookup taskName tf.Tasks).getD {}

/-- The statements written for one task before its loops: the Text node (when
a description or summary is present), the grey fill (when silent), and the
task icon (internal or external). -/
def headState (tf : Taskfile) (st : RunState) (taskName : String) : RunState :=
  let task := taskOf tf taskName
  let st1 :=
    if task.Desc ≠ "" ∨ task.Summary ≠ "" then W st (.taskText taskName (taskMarkdown task))
    else st
  let st2 := if task.Silent then W st1 (.taskSilentFill taskName) else st1
  W st2 (.taskIcon taskName
    (if task.Internal then internalTaskIconName else externalTaskIconName))

/-- The required-variables loop: per required variable, the variable node and
the "required by" edge. -/
def reqVarFold (taskName : String) (rvs : List RequiredVariable) (st : RunState) : RunState :=
  rvs.foldl
    (fun s rv => W (W s (.reqVarNode rv.Name (reqVarLabel rv))) (.reqVarEdge rv.Name taskName)) st

/-- The `EncapsulatePassedVars` arguments of the dependency loop. -/
def depArgs (taskName : String) (deps : List TaskCall) : List EncArgs :=
  deps.map fun c => ⟨taskName, c, "calls as dependency", depSecondLabel⟩

/-- The `EncapsulatePassedVars` arguments of the inline-call loop, numbered
from 1 by the `callCount` counter. -/
def callArgs (taskName : String) (calls : List TaskCall) : List EncArgs :=
  calls.enum.map fun ic => ⟨taskName, ic.2, "calls (" ++ toString (ic.1 + 1) ++ ")", callSecondLabel⟩

/-- The body of the per-task loop of `TaskfileToD2`: Text node, grey fill,
task icon, required-variable nodes and edges, dependency calls, then numbered
inline calls. -/
def processTask (tf : Taskfile) (st : RunState) (taskName : String) : Except Err RunState :=
  let task := taskOf tf taskName
  do
    let requiredVars ← task.GetRequiredVars
    let st4 := reqVarFold taskName requiredVars (headState tf st taskName)
    let depCalls ← task.GetDepCalls
    let st5 ← runEnc tf st4 (depArgs taskName depCalls)
    let calls ← task.GetCalls
    runEnc tf st5 (callArgs taskName calls)

/-- The per-task loop over the sorted task names. -/
def runTasks (tf : Taskfile) : List String → RunState → Except Err RunState
  | [], st => .ok st
  | n :: ns, st => do runTasks tf ns (← processTask tf st n)

/-- `slices.Sorted(maps.Keys(taskfile.Tasks))`. -/
def sortedTaskNames (tf : Taskfile) : List String := sortStrings (tf.Tasks.map Prod.fst)

/-- The include loop of `TaskfileToD2`: initialize the memo entry of each
include namespace to an empty set and write the include-icon statement, in
map iteration order (the Go loop does not sort). -/
def initIncludes (st : RunState) (incs : List String) : RunState :=
  incs.foldl (fun s inc => W { s with memo := setM inc [] s.memo } (.includeIcon inc)) st

/-- The six constant global-style statements written after the task loop. -/
def trailerStmts : List Stmt :=
  [.trailerEdgeStyle, .trailerRequiredBy, .trailerCallsDep, .trailerStar, .trailerIconNear, .trailerTextStyle]

/-- The initial writer state of a run: the `vars` block and the legend, which
consumes identifier 0. -/
def headerState (memo0 : Memo) : RunState := ⟨1, memo0, [.varsDecl, .legend 0]⟩

/-- d2writer.go `TaskfileToD2` on an already-parsed document, statement level:
fatal unless the version is "3"; write the `vars` block and the legend (which
consumes the first generated identifier); process includes, then tasks in
sorted name order; append the global styles.  `memo0` is the state of the
module-global memo when the run starts (`[]` in a fresh process); the final
memo is returned alongside the statement list. -/
def TaskfileToD2Core (memo0 : Memo) (tf : Taskfile) : Except Err (List Stmt × Memo) :=
  if tf.Version = "3" then
    let st0 := headerState memo0
    let st1 := initIncludes st0 tf.GetIncludes
    (runTasks tf (sortedTaskNames tf) st1).map fun st => (st.out ++ trailerStmts, st.memo)
  else .error .fatalUnsupportedVersion

/-- d2writer.go `TaskfileToD2`, text level: the statement list rendered with
the identifier generator `g` (the model of `uuid.NewString()`), joined by
newlines exactly as `D2Writer.String()` does. -/
def TaskfileToD2 (memo0 : Memo) (tf : Taskfile) (g : Nat → String) : Except Err String :=
  (TaskfileToD2Core memo0 tf).map fun p => renderDoc g p.1

/-- The statement list of a successful run. -/
def corePart (r : Except Err (List Stmt × Memo)) : Option (List Stmt) :=
  match r with
  | .ok p => some p.1
  | .error _ => none

/-- The final memo of a successful run. -/
def memoPart (r : Except Err (List Stmt × Memo)) : Option Memo :=
  match r with
  | .ok p => some p.2
  | .error _ => none

/-- The error of a failed run. -/
def errPart {α : Type} (r : Except Err α) : Option Err :=
  match r with
  | .ok _ => none
  | .error e => some e

/-- The include names in emission order of their icon statements. -/
def includeIconsOf (doc : List Stmt) : List String :=
  doc.filterMap fun s => match s with | .includeIcon n => some n | _ => none

/-- The task names in emission order of their per-task icon statements
(each task emits exactly one `taskIcon`, unconditionally). -/
def taskIconsOf (doc : List Stmt) : List String :=
  doc.filterMap fun s => match s with | .taskIcon n _ => some n | _ => none

/-- How many unknown-task icon statements target the given D2 node name. -/
def countUnknownIcon (dst : String) (doc : List Stmt) : Nat :=
  doc.countP fun s => s = Stmt.unknownIcon dst

/-- All calls of one task, dependency calls first, as the run processes them
(empty components when extraction fails). -/
def taskCallsD (t : Task) : List TaskCall :=
  (t.GetDepCalls.toOption.getD []) ++ (t.GetCalls.toOption.getD [])

/-- The sequence of all calls one run processes, tasks in sorted order. -/
def runCallsOf (tf : Taskfile) : List TaskCall :=
  (sortedTaskNames tf).flatMap fun n => taskCallsD (taskOf tf n)

/-- The per-variable statement block the spec describes for a call that passes
variables: a variable-icon node, a text node holding the escaped verbose value
rendering, and a "set to" edge, with value-node identifiers consecutive. -/
def varSeg (u : Nat) : Nat → List Variable → List Stmt
  | _, [] => []
  | c, v :: vs =>
    [.passedVarIcon u v.Name, .passedValText u c (escapeD2 (goReprTop v.Value)),
     .passedSetEdge u v.Name c] ++ varSeg u (c + 1) vs

/-- The number of identifiers one `EncapsulatePassedVars` call generates:
none without variables, one for the container plus one per variable. -/
def encCnt (cnt : Nat) (c : TaskCall) : Nat :=
  if c.Vars.isEmpty then cnt else cnt + 1 + c.Vars.length

/-- The edge statements the spec describes for one call: a single labeled edge
when no variables are passed, otherwise the two edges through the fresh "With"
parallelogram container followed by the per-variable blocks. -/
def encSeg (cnt : Nat) (taskName : String) (c : TaskCall) (fstLabel sndLabel : String) :
    List Stmt :=
  if c.Vars.isEmpty then [.directEdge taskName (replaceColons c.TaskName) fstLabel]
  else [.withEdgeIn taskName cnt fstLabel, .withEdgeOut cnt (replaceColons c.TaskName) sndLabel,
        .withNode cnt] ++ varSeg cnt (cnt + 1) c.Vars

/-- The statement shapes the per-variable loop can emit. -/
def isVarStmt : Stmt → Bool
  | .passedVarIcon _ _ => true
  | .passedValText _ _ _ => true
  | .passedSetEdge _ _ _ => true
  | _ => false

/-- The statement shapes `encSeg` can emit. -/
def isEdgeStmt : Stmt → Bool
  | .directEdge _ _ _ => true
  | .withEdgeIn _ _ _ => true
  | .withEdgeOut _ _ _ => true
  | .withNode _ => true
  | x => isVarStmt x

/-- The header statements of one task. -/
def headSeg (tf : Taskfile) (taskName : String) : List Stmt :=
  let task := taskOf tf taskName
  (if task.Desc ≠ "" ∨ task.Summary ≠ "" then [Stmt.taskText taskName (taskMarkdown task)]
   else [])
  ++ (if task.Silent then [Stmt.taskSilentFill taskName] else [])
  ++ [Stmt.taskIcon taskName
      (if task.Internal then internalTaskIconName else externalTaskIconName)]

/-- The required-variable statements of one task. -/
def reqSeg (taskName : String) (rvs : List RequiredVariable) : List Stmt :=
  rvs.flatMap fun rv => [.reqVarNode rv.Name (reqVarLabel rv), .reqVarEdge rv.Name taskName]

/-- The memo after the include loop. -/
def memoInit (incs : List String) (m : Memo) : Memo :=
  incs.foldl (fun mm i => setM i [] mm) m

/-! ### Keys of the classification memo: only initialized namespaces ever get
an entry, so a call into an undeclared namespace finds the nil map. -/

/-- Every key of the memo is a declared include. -/
def MemoKeysSub (incs : List String) (m : Memo) : Prop :=
  ∀ k v, List.lookup k m = some v → k ∈ incs

/-- Whether the pair (ns, sub) is already recorded in the memo. -/
def memoHas (m : Memo) (ns sub : String) : Bool :=
  ((List.lookup ns m).getD []).contains sub

/-! ### Two runs whose memos agree on every declared include behave
identically (the run re-initializes exactly those entries and, when every
namespaced call targets a declared include, reads no others). -/

/-- The two memos agree on every declared include namespace. -/
def MemoAgree (incs : List String) (m1 m2 : Memo) : Prop :=
  ∀ k ∈ incs, List.lookup k m1 = List.lookup k m2

/-- Two run states that differ at most in memo entries of undeclared
namespaces. -/
def StRel (incs : List String) (s1 s2 : RunState) : Prop :=
  s1.cnt = s2.cnt ∧ s1.out = s2.out ∧ MemoAgree incs s1.memo s2.memo

/-- The text contributed after an accumulator by the remaining lines of
`String.intercalate`: separator then line, repeatedly. -/
def restCat (sep : String) : List String → String
  | [] => ""
  | a :: as => sep ++ a ++ restCat sep as

/-! ### The claims. -/

/-- Example document for C8: a version-2 Taskfile. -/
def tfVersion2 : Taskfile := { Version := "2" }

/-- Example task for C9: both `cmd` and `cmds` are set. -/
def taskBothCmds : Task := { Cmd := some (Yaml.str "echo a"), Cmds := some [Yaml.str "echo b"] }

/-- Example document for C9. -/
def tfBothCmds : Taskfile := { Version := "3", Tasks := [("t", taskBothCmds)] }

/-- Example task for C3: a dependency call into an undeclared namespace. -/
def taskBadNs : Task := { Deps := [Yaml.str "ns:sub"] }

/-- Example document for C3: `ns` is not among the includes. -/
def tfBadNs : Taskfile := { Version := "3", Tasks := [("t", taskBadNs)] }

/-- Example task for C7: a structured required-variable entry carrying a
name but no enumeration. -/
def taskReqNoEnum : Task := { RequiresVars := [Yaml.map [("name", Yaml.str "FOO")]] }

/-- Example document for C5: two references to the flat unknown target "x". -/
def tfFlat : Taskfile :=
  { Version := "3"
    Tasks := [("t", { Deps := [Yaml.str "x"], Cmds := some [Yaml.map [("task", Yaml.str "x")]] })] }

/-- The statement list of the C5 example run. -/
def tfFlatDoc : List Stmt := (corePart (TaskfileToD2Core [] tfFlat)).getD []

/-- The final memo of the C5 example run. -/
def tfFlatMemo : Memo := (memoPart (TaskfileToD2Core [] tfFlat)).getD []

/-- Example document for C4: two calls to `ns:sub` with `ns` declared. -/
def tfNsTwice : Taskfile :=
  { Version := "3"
    Includes := ["ns"]
    Tasks := [("a", { Deps := [Yaml.str "ns:sub"] }), ("b", { Deps := [Yaml.str "ns:sub"] })] }

/-- The statement list of the C4 example run. -/
def tfNsTwiceDoc : List Stmt := (corePart (TaskfileToD2Core [] tfNsTwice)).getD []

/-- The final memo of the C4 example run. -/
def tfNsTwiceMemo : Memo := (memoPart (TaskfileToD2Core [] tfNsTwice)).getD []

/-- Example document for the C2 counterexample: the includes map iterates
as ["b", "a"]. -/
def tfIncludesBA : Taskfile := { Version := "3", Includes := ["b", "a"] }

/-- Example document for the C2 witness: two tasks and one include. -/
def tfTwoTasks : Taskfile :=
  { Version := "3", Includes := ["i"], Tasks := [("b", {}), ("a", {})] }

/-- The statement list of the C2 witness run. -/
def tfTwoTasksDoc : List Stmt := (corePart (TaskfileToD2Core [] tfTwoTasks)).getD []

/-- The final memo of the C2 witness run. -/
def tfTwoTasksMemo : Memo := (memoPart (TaskfileToD2Core [] tfTwoTasks)).getD []

/-- Example document for C10: the namespace `ns` is declared and `ns:sub`
is called, so the run records ("ns", ["sub"]) in the process-global memo. -/
def tfNsDeclared : Taskfile :=
  { Version := "3", Includes := ["ns"], Tasks := [("t", taskBadNs)] }

/-- Example document for C1: includes map iterating as ["a", "b"]. -/
def tfIncludesAB : Taskfile := { Version := "3", Includes := ["a", "b"] }

/-- The statement list of the C1 counterexample run on `tfIncludesAB`. -/
def docIncludesAB : List Stmt := (corePart (TaskfileToD2Core [] tfIncludesAB)).getD []

/-- The statement list of the C1 counterexample run on `tfIncludesBA`. -/
def docIncludesBA : List Stmt := (corePart (TaskfileToD2Core [] tfIncludesBA)).getD []

/-- The statements after the `vars` block and the legend for `tfIncludesAB`. -/
def tailIncludesAB : List Stmt :=
  [.includeIcon "a", .includeIcon "b"] ++ trailerStmts

/-- The statements after the `vars` block and the legend for `tfIncludesBA`. -/
def tailIncludesBA : List Stmt :=
  [.includeIcon "b", .includeIcon "a"] ++ trailerStmts

/-- The output text normalized by rendering every generated identifier as a
placeholder determined by its generation index. -/
def normalizedText (tf : Taskfile) : Option String :=
  (corePart (TaskfileToD2Core [] tf)).map (renderDoc canonGen)

/-- Identifier generator used by the C1 witness. -/
def genU : Nat → String := fun n => "u" ++ toString n

/-- Identifier generator used by the C1 witness. -/
def genV : Nat → String := fun n => "v" ++ toString n

/-- Example document for the C1 witness. -/
def tfOneInclude : Taskfile := { Version := "3", Includes := ["i"] }

/-- The statement list of the C1 witness run. -/
def tfOneIncludeDoc : List Stmt := (corePart (TaskfileToD2Core [] tfOneInclude)).getD []

/-- Empty document used by the C6 witness. -/
def tfEmpty : Taskfile := {}

/-- Start state of the C6 witness call. -/
def encExState : RunState := ⟨5, [], []⟩

/-- The C6 witness call: one passed variable. -/
def encExCall : TaskCall := ⟨"tgt", [⟨"A", Yaml.int 1⟩]⟩

/-- Result state of the C6 witness call. -/
def encExResult : RunState :=
  (EncapsulatePassedVars tfEmpty encExState "t" encExCall "f" "s").toOption.getD ⟨0, [], []⟩

/-- Task used by the C6 witness for dependency-call bindings. -/
def taskDepVars : Task :=
  { Deps := [Yaml.map [("task", Yaml.str "u"),
      ("vars", Yaml.map [("A", Yaml.int 1), ("B", Yaml.str "b")])]] }

/-- The dependency calls of `taskDepVars`. -/
def taskDepVarsCalls : List TaskCall := taskDepVars.GetDepCalls.toOption.getD []

/-- Task used by the C6 witness for inline-call bindings. -/
def taskCallVars : Task :=
  { Cmds := some [Yaml.map [("task", Yaml.str "u"),
      ("vars", Yaml.map [("B", Yaml.int 1)])]] }

/-- The inline calls of `taskCallVars`. -/
def taskCallVarsCalls : List TaskCall := taskCallVars.GetCalls.toOption.getD []

/-! ### Theorems. -/

theorem lexLe_total : ∀ s t : List Char, lexLe s t = true ∨ lexLe t s = true
  | [], _ => Or.inl rfl
  | _ :: _, [] => Or.inr rfl
  | a :: s, b :: t => by
    simp only [lexLe]
    rcases Nat.lt_trichotomy a.toNat b.toNat with h | h | h
    · simp [h]
    · simp only [h, Nat.lt_irrefl, if_false]
      exact lexLe_total s t
    · simp [h, Nat.not_lt.mpr (Nat.le_of_lt h)]

theorem lexLe_trans : ∀ s t u : List Char,
    lexLe s t = true → lexLe t u = true → lexLe s u = true
  | [], _, _, _, _ => rfl
  | a :: s, [], _, h, _ => by simp [lexLe] at h
  | a :: s, b :: t, [], _, h => by simp [lexLe] at h
  | a :: s, b :: t, c :: u, h1, h2 => by
    simp only [lexLe] at h1 h2 ⊢
    rcases Nat.lt_trichotomy a.toNat b.toNat with hab | hab | hab <;>
      rcases Nat.lt_trichotomy b.toNat c.toNat with hbc | hbc | hbc <;>
      simp_all [Nat.lt_irrefl, Nat.not_lt.mpr, Nat.le_of_lt] <;>
      first
        | (exact absurd (Nat.lt_trans hab hbc) (by omega))
        | omega
        | (exact lexLe_trans s t u h1 h2)

theorem strLe_isTotal : IsTotal String StrLe := ⟨fun a b => lexLe_total a.data b.data⟩

theorem strLe_isTrans : IsTrans String StrLe := ⟨fun a b c => lexLe_trans a.data b.data c.data⟩

/-! ### Basic lemmas about the memo, the name-splitting helpers, and the
statement segments emitted by one `EncapsulatePassedVars` call. -/

theorem takeWhile_append_all {α : Type} (p : α → Bool) (l1 l2 : List α)
    (h : ∀ c ∈ l1, p c = true) : (l1 ++ l2).takeWhile p = l1 ++ l2.takeWhile p := by
  induction l1 with
  | nil => simp
  | cons a t ih =>
    have ha := h a (List.mem_cons_self a t)
    simp [List.takeWhile_cons, ha, ih fun c hc => h c (List.mem_cons_of_mem a hc)]

theorem dropWhile_append_all {α : Type} (p : α → Bool) (l1 l2 : List α)
    (h : ∀ c ∈ l1, p c = true) : (l1 ++ l2).dropWhile p = l2.dropWhile p := by
  induction l1 with
  | nil => simp
  | cons a t ih =>
    have ha := h a (List.mem_cons_self a t)
    simp [List.dropWhile_cons, ha, ih fun c hc => h c (List.mem_cons_of_mem a hc)]

theorem lookup_setM_self (k : String) (v : List String) :
    ∀ m : Memo, List.lookup k (setM k v m) = some v := by
  intro m
  induction m with
  | nil => simp [setM, List.lookup]
  | cons p t ih =>
    obtain ⟨k', v'⟩ := p
    by_cases h : k' = k
    · simp [setM, h, List.lookup]
    · simp only [setM, if_neg h, List.lookup]
      have : (k == k') = false := by simp; exact fun e => h e.symm
      simp [this, ih]

theorem lookup_setM_ne (k k' : String) (v : List String) (hne : k' ≠ k) :
    ∀ m : Memo, List.lookup k' (setM k v m) = List.lookup k' m := by
  intro m
  have hb : (k' == k) = false := by simp; exact hne
  induction m with
  | nil => simp [setM, List.lookup, hb]
  | cons p t ih =>
    obtain ⟨k'', v''⟩ := p
    by_cases h : k'' = k
    · subst h
      simp [setM, List.lookup, hb]
    · simp only [setM, if_neg h, List.lookup]
      by_cases h2 : k' = k''
      · simp [h2]
      · have : (k' == k'') = false := by simp; exact h2
        simp [this, ih]

theorem lookup_of_mem_nodup {α : Type} {l : List (String × α)} {k : String} {v : α}
    (hmem : (k, v) ∈ l) (hnd : (l.map Prod.fst).Nodup) : List.lookup k l = some v := by
  induction l with
  | nil => cases hmem
  | cons p t ih =>
    obtain ⟨k', v'⟩ := p
    rcases List.mem_cons.mp hmem with h | h
    · cases h
      simp [List.lookup]
    · have hk : k ≠ k' := by
        intro e
        subst e
        simp only [List.map_cons, List.nodup_cons] at hnd
        exact hnd.1 (List.mem_map.mpr ⟨(k, v), h, rfl⟩)
      have hb : (k == k') = false := by simp; exact hk
      simp only [List.lookup, hb]
      simp only [List.map_cons, List.nodup_cons] at hnd
      exact ih h hnd.2

theorem hasColon_append_colon (ns sub : String) : hasColon (ns ++ ":" ++ sub) = true := by
  simp only [hasColon, String.data_append, List.any_append, List.any_eq_true, Bool.or_eq_true]
  exact Or.inl (Or.inr ⟨':', by simp, by simp⟩)

theorem data_all_ne_colon {s : String} (h : hasColon s = false) :
    ∀ c ∈ s.data, c ≠ ':' := by
  intro c hc he
  have : s.data.any (fun c => c = ':') = true := List.any_eq_true.mpr ⟨c, hc, by simp [he]⟩
  rw [show (s.data.any fun c => c = ':') = hasColon s from rfl, h] at this
  cases this

theorem nsOf_append_colon {ns : String} (sub : String) (h : hasColon ns = false) :
    nsOf (ns ++ ":" ++ sub) = ns := by
  apply String.ext
  show ((ns ++ ":" ++ sub).data.takeWhile fun c => c ≠ ':') = ns.data
  rw [String.data_append, String.data_append, List.append_assoc]
  rw [takeWhile_append_all _ _ _ (by intro c hc; simpa using data_all_ne_colon h c hc)]
  rw [show ((":" : String).data = [':']) from rfl]
  simp

theorem subOf_append_colon {ns : String} (sub : String) (h : hasColon ns = false) :
    subOf (ns ++ ":" ++ sub) = sub := by
  apply String.ext
  show (((ns ++ ":" ++ sub).data.dropWhile fun c => c ≠ ':').tail) = sub.data
  rw [String.data_append, String.data_append, List.append_assoc]
  rw [dropWhile_append_all _ _ _ (by intro c hc; simpa using data_all_ne_colon h c hc)]
  rw [show ((":" : String).data = [':']) from rfl]
  simp

theorem replaceColons_of_no_colon {s : String} (h : hasColon s = false) :
    replaceColons s = s := by
  apply String.ext
  simp only [replaceColons, String.data_join, List.map_map]
  have : ∀ l : List Char, (∀ c ∈ l, c ≠ ':') →
      ((l.map ((fun c => if c = ':' then "'.'" else String.singleton c) ·)).map String.data).flatten = l := by
    intro l hl
    induction l with
    | nil => rfl
    | cons a t ih =>
      have ha : a ≠ ':' := hl a (List.mem_cons_self a t)
      simp only [List.map_cons, List.flatten_cons, Function.comp]
      rw [if_neg ha]
      rw [show (String.singleton a).data = [a] from rfl]
      have hx := ih fun c hc => hl c (List.mem_cons_of_mem a hc)
      simp only [List.map_map] at hx ⊢
      simpa using hx
  have h2 := this s.data (data_all_ne_colon h)
  simpa using h2

theorem emitVars_spec (u : Nat) : ∀ (vs : List Variable) (st : RunState),
    emitVars u st vs =
      ⟨st.cnt + vs.length, st.memo, st.out ++ varSeg u st.cnt vs⟩ := by
  intro vs
  induction vs with
  | nil => intro st; simp [emitVars, varSeg]
  | cons v t ih =>
    intro st
    simp only [emitVars, W]
    rw [ih]
    simp only [varSeg]
    refine congrArg₂ (RunState.mk · st.memo ·) (by simp [List.length_cons]; omega) ?_
    simp

theorem encBody_spec (st : RunState) (tn : String) (c : TaskCall) (f s : String) :
    encBody st tn c f s = ⟨encCnt st.cnt c, st.memo, st.out ++ encSeg st.cnt tn c f s⟩ := by
  by_cases hv : c.Vars.isEmpty
  · simp [encBody, hv, W, encCnt, encSeg]
  · have hv' : c.Vars.isEmpty = false := by simpa using hv
    simp only [encBody, hv', Bool.false_eq_true, if_false]
    rw [emitVars_spec]
    simp only [W, encCnt, encSeg, hv', Bool.false_eq_true, if_false]
    refine congrArg₂ (RunState.mk · st.memo ·) (by omega) (by simp)

theorem enc_ok_cases {tf : Taskfile} {st : RunState} {tn : String} {c : TaskCall}
    {f s : String} {st' : RunState}
    (h : EncapsulatePassedVars tf st tn c f s = .ok st') :
    (hasColon c.TaskName = true ∧ ∃ subs, List.lookup (nsOf c.TaskName) st.memo = some subs ∧
        ((subs.contains (subOf c.TaskName) = true ∧
          st' = ⟨encCnt st.cnt c, st.memo, st.out ++ encSeg st.cnt tn c f s⟩)
       ∨ (subs.contains (subOf c.TaskName) = false ∧
          st' = ⟨encCnt st.cnt c,
                 setM (nsOf c.TaskName) (subs ++ [subOf c.TaskName]) st.memo,
                 st.out ++ encSeg st.cnt tn c f s
                   ++ [.unknownIcon (replaceColons c.TaskName)]⟩)))
    ∨ (hasColon c.TaskName = false ∧
        (((List.lookup c.TaskName tf.Tasks).isSome = true ∧
          st' = ⟨encCnt st.cnt c, st.memo, st.out ++ encSeg st.cnt tn c f s⟩)
       ∨ ((List.lookup c.TaskName tf.Tasks).isSome = false ∧
          st' = ⟨encCnt st.cnt c, st.memo,
                 st.out ++ encSeg st.cnt tn c f s ++ [.unknownIcon c.TaskName]⟩))) := by
  unfold EncapsulatePassedVars at h
  rw [encBody_spec] at h
  by_cases hcol : hasColon c.TaskName
  · simp only [hcol, if_true] at h
    left
    refine ⟨hcol, ?_⟩
    cases hlk : List.lookup (nsOf c.TaskName) st.memo with
    | none => rw [hlk] at h; cases h
    | some subs =>
      rw [hlk] at h
      refine ⟨subs, rfl, ?_⟩
      by_cases hc2 : subs.contains (subOf c.TaskName)
      · left
        simp only [hc2, if_true] at h
        exact ⟨hc2, ((Except.ok.injEq _ _).mp h).symm⟩
      · right
        have hc2' : subs.contains (subOf c.TaskName) = false := by simpa using hc2
        simp only [hc2', Bool.false_eq_true, if_false, W] at h
        exact ⟨hc2', ((Except.ok.injEq _ _).mp h).symm⟩
  · have hcol' : hasColon c.TaskName = false := by simpa using hcol
    simp only [hcol', Bool.false_eq_true, if_false] at h
    right
    refine ⟨hcol', ?_⟩
    rw [replaceColons_of_no_colon hcol'] at h
    by_cases hlk : (List.lookup c.TaskName tf.Tasks).isSome
    · left
      simp only [hlk, if_true] at h
      exact ⟨hlk, ((Except.ok.injEq _ _).mp h).symm⟩
    · right
      have hlk' : (List.lookup c.TaskName tf.Tasks).isSome = false :=
        Bool.not_eq_true _ ▸ eq_false_of_ne_true hlk
      simp only [hlk', Bool.false_eq_true, if_false, W] at h
      exact ⟨hlk', ((Except.ok.injEq _ _).mp h).symm⟩

theorem enc_error_of_none {tf : Taskfile} {st : RunState} {tn : String} {c : TaskCall}
    {f s : String} (hcol : hasColon c.TaskName = true)
    (hlk : List.lookup (nsOf c.TaskName) st.memo = none) :
    EncapsulatePassedVars tf st tn c f s = .error .panicNilMapWrite := by
  unfold EncapsulatePassedVars
  rw [encBody_spec]
  simp only [hcol, if_true]
  rw [hlk]

/-! ### Counting and projection helpers over emitted segments. -/

theorem countUnknownIcon_append (d : String) (l1 l2 : List Stmt) :
    countUnknownIcon d (l1 ++ l2) = countUnknownIcon d l1 + countUnknownIcon d l2 :=
  List.countP_append _ _ _

theorem varSeg_all (u : Nat) : ∀ (c : Nat) (vs : List Variable),
    ∀ x ∈ varSeg u c vs, isVarStmt x = true := by
  intro c vs
  induction vs generalizing c with
  | nil => intro x hx; cases hx
  | cons v t ih =>
    intro x hx
    simp only [varSeg, List.cons_append, List.mem_cons] at hx
    rcases hx with h | h | h | h
    · subst h; rfl
    · subst h; rfl
    · subst h; rfl
    · exact ih (c + 1) x h

theorem encSeg_all (cnt : Nat) (tn : String) (c : TaskCall) (f s : String) :
    ∀ x ∈ encSeg cnt tn c f s, isEdgeStmt x = true := by
  intro x hx
  by_cases hv : c.Vars.isEmpty
  · simp only [encSeg, hv, if_true, List.mem_singleton] at hx
    subst hx; rfl
  · have hv' : c.Vars.isEmpty = false := by simpa using hv
    simp only [encSeg, hv', Bool.false_eq_true, if_false, List.cons_append, List.mem_cons,
      List.nil_append, List.mem_append] at hx
    rcases hx with h | h | h | h
    · subst h; rfl
    · subst h; rfl
    · subst h; rfl
    · have := varSeg_all cnt (cnt + 1) c.Vars x h
      cases x <;> simp_all [isEdgeStmt, isVarStmt]

theorem countUnknownIcon_encSeg (d : String) (cnt : Nat) (tn : String) (c : TaskCall)
    (f s : String) : countUnknownIcon d (encSeg cnt tn c f s) = 0 := by
  refine List.countP_eq_zero.mpr ?_
  intro x hx
  have := encSeg_all cnt tn c f s x hx
  cases x <;> simp_all [isEdgeStmt, isVarStmt]

theorem countUnknownIcon_single (d e : String) :
    countUnknownIcon d [.unknownIcon e] = if e = d then 1 else 0 := by
  by_cases h : e = d
  · simp [countUnknownIcon, List.countP_cons, h]
  · simp only [countUnknownIcon, List.countP, List.countP.go, h, if_neg h]
    have : (Stmt.unknownIcon e = Stmt.unknownIcon d) = False := by
      simp [Stmt.unknownIcon.injEq]; exact h
    simp [this]

theorem taskIconsOf_append (l1 l2 : List Stmt) :
    taskIconsOf (l1 ++ l2) = taskIconsOf l1 ++ taskIconsOf l2 :=
  List.filterMap_append _ _ _

theorem includeIconsOf_append (l1 l2 : List Stmt) :
    includeIconsOf (l1 ++ l2) = includeIconsOf l1 ++ includeIconsOf l2 :=
  List.filterMap_append _ _ _

theorem icons_encSeg (cnt : Nat) (tn : String) (c : TaskCall) (f s : String) :
    taskIconsOf (encSeg cnt tn c f s) = [] ∧ includeIconsOf (encSeg cnt tn c f s) = [] := by
  constructor <;>
  · refine List.filterMap_eq_nil_iff.mpr ?_
    intro x hx
    have := encSeg_all cnt tn c f s x hx
    cases x <;> simp_all [isEdgeStmt, isVarStmt]

theorem icons_unknown (e : String) :
    taskIconsOf [.unknownIcon e] = [] ∧ includeIconsOf [.unknownIcon e] = [] := by
  simp [taskIconsOf, includeIconsOf, List.filterMap]

/-! ### Inversion of the monadic control flow. -/

theorem bind_ok_inv {α β : Type} {x : Except Err α} {f : α → Except Err β} {b : β}
    (h : (x >>= f) = .ok b) : ∃ a, x = .ok a ∧ f a = .ok b := by
  cases x with
  | error e => simp [Bind.bind, Except.bind] at h
  | ok a => exact ⟨a, rfl, by simpa [Bind.bind, Except.bind] using h⟩

theorem runEnc_cons_inv {tf : Taskfile} {st : RunState} {a : EncArgs} {rest : List EncArgs}
    {st'' : RunState} (h : runEnc tf st (a :: rest) = .ok st'') :
    ∃ st', EncapsulatePassedVars tf st a.taskName a.call a.fstLabel a.sndLabel = .ok st' ∧
      runEnc tf st' rest = .ok st'' := by
  simp only [runEnc] at h
  exact bind_ok_inv h

theorem runTasks_cons_inv {tf : Taskfile} {n : String} {ns : List String} {st st'' : RunState}
    (h : runTasks tf (n :: ns) st = .ok st'') :
    ∃ st', processTask tf st n = .ok st' ∧ runTasks tf ns st' = .ok st'' := by
  simp only [runTasks] at h
  exact bind_ok_inv h

theorem processTask_ok_inv {tf : Taskfile} {st : RunState} {n : String} {st' : RunState}
    (h : processTask tf st n = .ok st') :
    ∃ rvs deps calls st5,
      (taskOf tf n).GetRequiredVars = .ok rvs ∧
      (taskOf tf n).GetDepCalls = .ok deps ∧
      (taskOf tf n).GetCalls = .ok calls ∧
      runEnc tf (reqVarFold n rvs (headState tf st n)) (depArgs n deps) = .ok st5 ∧
      runEnc tf st5 (callArgs n calls) = .ok st' := by
  simp only [processTask] at h
  obtain ⟨rvs, hrvs, h⟩ := bind_ok_inv h
  obtain ⟨deps, hdeps, h⟩ := bind_ok_inv h
  obtain ⟨st5, hst5, h⟩ := bind_ok_inv h
  obtain ⟨calls, hcalls, h⟩ := bind_ok_inv h
  exact ⟨rvs, deps, calls, st5, hrvs, hdeps, hcalls, hst5, h⟩

theorem enc_icons {tf : Taskfile} {st : RunState} {tn : String} {c : TaskCall}
    {f s : String} {st' : RunState}
    (h : EncapsulatePassedVars tf st tn c f s = .ok st') :
    taskIconsOf st'.out = taskIconsOf st.out ∧
    includeIconsOf st'.out = includeIconsOf st.out := by
  rcases enc_ok_cases h with ⟨_, subs, _, ⟨_, rfl⟩ | ⟨_, rfl⟩⟩ | ⟨_, ⟨_, rfl⟩ | ⟨_, rfl⟩⟩ <;>
    simp [taskIconsOf_append, includeIconsOf_append, (icons_encSeg ..).1, (icons_encSeg ..).2,
      (icons_unknown _).1, (icons_unknown _).2]

theorem runEnc_icons {tf : Taskfile} : ∀ {L : List EncArgs} {st st' : RunState},
    runEnc tf st L = .ok st' →
    taskIconsOf st'.out = taskIconsOf st.out ∧
    includeIconsOf st'.out = includeIconsOf st.out := by
  intro L
  induction L with
  | nil => intro st st' h; cases h; exact ⟨rfl, rfl⟩
  | cons a rest ih =>
    intro st st' h
    obtain ⟨stm, h1, h2⟩ := runEnc_cons_inv h
    obtain ⟨e1, e2⟩ := enc_icons h1
    obtain ⟨e3, e4⟩ := ih h2
    exact ⟨e3.trans e1, e4.trans e2⟩

theorem headState_spec (tf : Taskfile) (st : RunState) (n : String) :
    headState tf st n = ⟨st.cnt, st.memo, st.out ++ headSeg tf n⟩ := by
  simp only [headState, headSeg, W]
  by_cases h1 : (taskOf tf n).Desc ≠ "" ∨ (taskOf tf n).Summary ≠ "" <;>
    by_cases h2 : (taskOf tf n).Silent <;>
      simp [h1, h2]

theorem reqVarFold_spec (n : String) : ∀ (rvs : List RequiredVariable) (st : RunState),
    reqVarFold n rvs st = ⟨st.cnt, st.memo, st.out ++ reqSeg n rvs⟩ := by
  intro rvs
  induction rvs with
  | nil => intro st; simp [reqVarFold, reqSeg]
  | cons rv t ih =>
    intro st
    simp only [reqVarFold, List.foldl_cons]
    have := ih (W (W st (.reqVarNode rv.Name (reqVarLabel rv))) (.reqVarEdge rv.Name n))
    simp only [reqVarFold] at this
    rw [this]
    simp [W, reqSeg]

theorem icons_headSeg (tf : Taskfile) (n : String) :
    taskIconsOf (headSeg tf n) = [n] ∧ includeIconsOf (headSeg tf n) = [] := by
  by_cases h1 : (taskOf tf n).Desc ≠ "" ∨ (taskOf tf n).Summary ≠ "" <;>
    by_cases h2 : (taskOf tf n).Silent <;>
      simp [headSeg, h1, h2, taskIconsOf, includeIconsOf, List.filterMap]

theorem icons_reqSeg (n : String) (rvs : List RequiredVariable) :
    taskIconsOf (reqSeg n rvs) = [] ∧ includeIconsOf (reqSeg n rvs) = [] := by
  constructor <;>
  · refine List.filterMap_eq_nil_iff.mpr ?_
    intro x hx
    simp only [reqSeg, List.mem_flatMap, List.mem_cons] at hx
    obtain ⟨rv, _, h | h | h⟩ := hx <;> first | (subst h; rfl) | cases h

theorem countUnknownIcon_headSeg (d : String) (tf : Taskfile) (n : String) :
    countUnknownIcon d (headSeg tf n) = 0 := by
  refine List.countP_eq_zero.mpr ?_
  intro x hx
  by_cases h1 : (taskOf tf n).Desc ≠ "" ∨ (taskOf tf n).Summary ≠ "" <;>
    by_cases h2 : (taskOf tf n).Silent <;>
      simp_all [headSeg, h1, h2] <;> rcases hx with h | h | h <;> simp_all

theorem countUnknownIcon_reqSeg (d : String) (n : String) (rvs : List RequiredVariable) :
    countUnknownIcon d (reqSeg n rvs) = 0 := by
  refine List.countP_eq_zero.mpr ?_
  intro x hx
  simp only [reqSeg, List.mem_flatMap, List.mem_cons] at hx
  obtain ⟨rv, _, h | h | h⟩ := hx <;> first | (subst h; simp) | cases h

theorem initIncludes_spec : ∀ (incs : List String) (st : RunState),
    initIncludes st incs =
      ⟨st.cnt, memoInit incs st.memo, st.out ++ incs.map Stmt.includeIcon⟩ := by
  intro incs
  induction incs with
  | nil => intro st; simp [initIncludes, memoInit]
  | cons i t ih =>
    intro st
    simp only [initIncludes, List.foldl_cons]
    have := ih (W { st with memo := setM i [] st.memo } (.includeIcon i))
    simp only [initIncludes] at this
    rw [this]
    simp [W, memoInit]

theorem icons_includeMap (incs : List String) :
    taskIconsOf (incs.map Stmt.includeIcon) = [] ∧
    includeIconsOf (incs.map Stmt.includeIcon) = incs := by
  constructor
  · refine List.filterMap_eq_nil_iff.mpr ?_
    intro x hx
    obtain ⟨i, _, rfl⟩ := List.mem_map.mp hx
    rfl
  · induction incs with
    | nil => rfl
    | cons i t ih => simp only [List.map_cons, includeIconsOf, List.filterMap] at ih ⊢; simp [ih]

theorem countUnknownIcon_includeMap (d : String) (incs : List String) :
    countUnknownIcon d (incs.map Stmt.includeIcon) = 0 := by
  refine List.countP_eq_zero.mpr ?_
  intro x hx
  obtain ⟨i, _, rfl⟩ := List.mem_map.mp hx
  simp

theorem processTask_icons {tf : Taskfile} {st : RunState} {n : String} {st' : RunState}
    (h : processTask tf st n = .ok st') :
    taskIconsOf st'.out = taskIconsOf st.out ++ [n] ∧
    includeIconsOf st'.out = includeIconsOf st.out := by
  obtain ⟨rvs, deps, calls, st5, _, _, _, h1, h2⟩ := processTask_ok_inv h
  rw [reqVarFold_spec, headState_spec] at h1
  obtain ⟨e1, e2⟩ := runEnc_icons h1
  obtain ⟨e3, e4⟩ := runEnc_icons h2
  simp only [taskIconsOf_append, includeIconsOf_append, (icons_headSeg tf n).1,
    (icons_headSeg tf n).2, (icons_reqSeg n rvs).1, (icons_reqSeg n rvs).2,
    List.append_nil, List.append_assoc] at e1 e2
  exact ⟨e3.trans e1, e4.trans e2⟩

theorem runTasks_icons {tf : Taskfile} : ∀ {names : List String} {st st' : RunState},
    runTasks tf names st = .ok st' →
    taskIconsOf st'.out = taskIconsOf st.out ++ names ∧
    includeIconsOf st'.out = includeIconsOf st.out := by
  intro names
  induction names with
  | nil => intro st st' h; cases h; simp
  | cons n ns ih =>
    intro st st' h
    obtain ⟨stm, h1, h2⟩ := runTasks_cons_inv h
    obtain ⟨e1, e2⟩ := processTask_icons h1
    obtain ⟨e3, e4⟩ := ih h2
    rw [e1] at e3
    rw [e2] at e4
    exact ⟨by simpa using e3, e4⟩

theorem map_ok_inv {α β : Type} {g : α → β} {x : Except Err α} {b : β}
    (h : x.map g = .ok b) : ∃ a, x = .ok a ∧ b = g a := by
  cases x with
  | error e => simp [Except.map] at h
  | ok a => exact ⟨a, rfl, by simpa [Except.map] using h.symm⟩

theorem core_ok_inv {memo0 : Memo} {tf : Taskfile} {doc : List Stmt} {m : Memo}
    (h : TaskfileToD2Core memo0 tf = .ok (doc, m)) :
    tf.Version = "3" ∧
    ∃ stF, runTasks tf (sortedTaskNames tf) (initIncludes (headerState memo0) tf.GetIncludes)
        = .ok stF ∧ doc = stF.out ++ trailerStmts ∧ m = stF.memo := by
  unfold TaskfileToD2Core at h
  by_cases hv : tf.Version = "3"
  · simp only [hv, if_true] at h
    obtain ⟨stF, h1, h2⟩ := map_ok_inv h
    refine ⟨hv, stF, ?_, ?_, ?_⟩
    · exact h1
    · exact congrArg Prod.fst h2
    · exact congrArg Prod.snd h2
  · simp [hv] at h

theorem core_err_of_runTasks {memo0 : Memo} {tf : Taskfile}
    (hv : tf.Version = "3")
    (h : ∀ stF, runTasks tf (sortedTaskNames tf)
        (initIncludes (headerState memo0) tf.GetIncludes) ≠ .ok stF) :
    ∃ e, TaskfileToD2Core memo0 tf = .error e := by
  unfold TaskfileToD2Core
  simp only [hv, if_true]
  cases hr : runTasks tf (sortedTaskNames tf) (initIncludes (headerState memo0) tf.GetIncludes) with
  | error e => exact ⟨e, rfl⟩
  | ok stF => exact absurd hr (h stF)

theorem memoKeysSub_nil (incs : List String) : MemoKeysSub incs [] := by
  intro k v h
  cases h

theorem memoKeysSub_setM {incs : List String} {m : Memo} {k : String} {v : List String}
    (h : MemoKeysSub incs m) (hk : k ∈ incs) : MemoKeysSub incs (setM k v m) := by
  intro k' v' hlk
  by_cases he : k' = k
  · subst he; exact hk
  · rw [lookup_setM_ne k k' v he] at hlk
    exact h k' v' hlk

theorem memoKeysSub_memoInit {incs : List String} : ∀ {incs' : List String} {m : Memo},
    MemoKeysSub incs m → (∀ i ∈ incs', i ∈ incs) → MemoKeysSub incs (memoInit incs' m) := by
  intro incs'
  induction incs' with
  | nil => intro m h _; exact h
  | cons i t ih =>
    intro m h hsub
    simp only [memoInit, List.foldl_cons]
    exact ih (memoKeysSub_setM h (hsub i (List.mem_cons_self i t)))
      fun j hj => hsub j (List.mem_cons_of_mem i hj)

theorem enc_memoKeysSub {incs : List String} {tf : Taskfile} {st : RunState} {tn : String}
    {c : TaskCall} {f s : String} {st' : RunState}
    (h : EncapsulatePassedVars tf st tn c f s = .ok st')
    (hm : MemoKeysSub incs st.memo) : MemoKeysSub incs st'.memo := by
  rcases enc_ok_cases h with ⟨_, subs, hlk, ⟨_, rfl⟩ | ⟨_, rfl⟩⟩ | ⟨_, ⟨_, rfl⟩ | ⟨_, rfl⟩⟩
  · exact hm
  · exact memoKeysSub_setM hm (hm _ _ hlk)
  · exact hm
  · exact hm

theorem enc_bad_ns {incs : List String} {tf : Taskfile} {st : RunState} {tn : String}
    {c : TaskCall} {f s : String}
    (hcol : hasColon c.TaskName = true) (hns : nsOf c.TaskName ∉ incs)
    (hm : MemoKeysSub incs st.memo) :
    EncapsulatePassedVars tf st tn c f s = .error .panicNilMapWrite := by
  apply enc_error_of_none hcol
  cases hlk : List.lookup (nsOf c.TaskName) st.memo with
  | none => rfl
  | some v => exact absurd (hm _ _ hlk) hns

theorem runEnc_memoKeysSub {incs : List String} {tf : Taskfile} :
    ∀ {L : List EncArgs} {st st' : RunState},
    runEnc tf st L = .ok st' → MemoKeysSub incs st.memo → MemoKeysSub incs st'.memo := by
  intro L
  induction L with
  | nil => intro st st' h hm; cases h; exact hm
  | cons a rest ih =>
    intro st st' h hm
    obtain ⟨stm, h1, h2⟩ := runEnc_cons_inv h
    exact ih h2 (enc_memoKeysSub h1 hm)

theorem runEnc_bad_ns {incs : List String} {tf : Taskfile} :
    ∀ {L : List EncArgs} {st : RunState} {a : EncArgs},
    a ∈ L → hasColon a.call.TaskName = true → nsOf a.call.TaskName ∉ incs →
    MemoKeysSub incs st.memo → ∀ st', runEnc tf st L ≠ .ok st' := by
  intro L
  induction L with
  | nil => intro st a ha; cases ha
  | cons b rest ih =>
    intro st a ha hcol hns hm st' h
    obtain ⟨stm, h1, h2⟩ := runEnc_cons_inv h
    rcases List.mem_cons.mp ha with he | he
    · subst he
      rw [enc_bad_ns hcol hns hm] at h1
      cases h1
    · exact ih he hcol hns (enc_memoKeysSub h1 hm) st' h2

theorem processTask_memoKeysSub {incs : List String} {tf : Taskfile} {st : RunState}
    {n : String} {st' : RunState}
    (h : processTask tf st n = .ok st') (hm : MemoKeysSub incs st.memo) :
    MemoKeysSub incs st'.memo := by
  obtain ⟨rvs, deps, calls, st5, _, _, _, h1, h2⟩ := processTask_ok_inv h
  rw [reqVarFold_spec, headState_spec] at h1
  exact runEnc_memoKeysSub h2 (runEnc_memoKeysSub h1 hm)

theorem mem_depArgs {n : String} {deps : List TaskCall} {c : TaskCall} (hc : c ∈ deps) :
    (⟨n, c, "calls as dependency", depSecondLabel⟩ : EncArgs) ∈ depArgs n deps :=
  List.mem_map.mpr ⟨c, hc, rfl⟩

theorem mem_callArgs {n : String} {calls : List TaskCall} {c : TaskCall} (hc : c ∈ calls) :
    ∃ a ∈ callArgs n calls, a.call = c := by
  have : c ∈ calls.enum.map Prod.snd := by rw [List.enum_map_snd]; exact hc
  obtain ⟨ic, hic, he⟩ := List.mem_map.mp this
  exact ⟨⟨n, ic.2, "calls (" ++ toString (ic.1 + 1) ++ ")", callSecondLabel⟩,
    List.mem_map.mpr ⟨ic, hic, rfl⟩, he⟩

theorem processTask_bad_ns {incs : List String} {tf : Taskfile} {st : RunState}
    {n : String} {c : TaskCall}
    (hc : c ∈ taskCallsD (taskOf tf n)) (hcol : hasColon c.TaskName = true)
    (hns : nsOf c.TaskName ∉ incs) (hm : MemoKeysSub incs st.memo) :
    ∀ st', processTask tf st n ≠ .ok st' := by
  intro st' h
  obtain ⟨rvs, deps, calls, st5, _, hdep, hcall, h1, h2⟩ := processTask_ok_inv h
  unfold taskCallsD at hc
  rw [hdep, hcall] at hc
  simp only [Except.toOption, Option.getD_some, List.mem_append] at hc
  have hm4 : MemoKeysSub incs (reqVarFold n rvs (headState tf st n)).memo := by
    rw [reqVarFold_spec, headState_spec]
    exact hm
  rcases hc with hc | hc
  · exact runEnc_bad_ns (mem_depArgs hc) hcol hns hm4 st5 h1
  · obtain ⟨a, ha, hac⟩ := mem_callArgs (n := n) hc
    rw [← hac] at hcol hns
    exact runEnc_bad_ns ha hcol hns (runEnc_memoKeysSub h1 hm4) st' h2

theorem runTasks_bad_ns {incs : List String} {tf : Taskfile} :
    ∀ {names : List String} {st : RunState} {n : String} {c : TaskCall},
    n ∈ names → c ∈ taskCallsD (taskOf tf n) → hasColon c.TaskName = true →
    nsOf c.TaskName ∉ incs → MemoKeysSub incs st.memo →
    ∀ st', runTasks tf names st ≠ .ok st' := by
  intro names
  induction names with
  | nil => intro st n c hn; cases hn
  | cons m rest ih =>
    intro st n c hn hc hcol hns hm st' h
    obtain ⟨stm, h1, h2⟩ := runTasks_cons_inv h
    rcases List.mem_cons.mp hn with he | he
    · subst he
      exact processTask_bad_ns hc hcol hns hm stm h1
    · exact ih he hc hcol hns (processTask_memoKeysSub h1 hm) st' h2

/-! ### Helpers for the fatal-error claims. -/

theorem mem_sortedTaskNames {tf : Taskfile} {n : String} {t : Task}
    (h : (n, t) ∈ tf.Tasks) : n ∈ sortedTaskNames tf :=
  (List.perm_insertionSort StrLe (tf.Tasks.map Prod.fst)).mem_iff.mpr
    (List.mem_map.mpr ⟨(n, t), h, rfl⟩)

theorem runTasks_all_ok {tf : Taskfile} : ∀ {names : List String} {st st' : RunState}
    {n : String}, runTasks tf names st = .ok st' → n ∈ names →
    ∃ st0 st1, processTask tf st0 n = .ok st1 := by
  intro names
  induction names with
  | nil => intro st st' n _ hn; cases hn
  | cons m rest ih =>
    intro st st' n h hn
    obtain ⟨stm, h1, h2⟩ := runTasks_cons_inv h
    rcases List.mem_cons.mp hn with he | he
    · subst he; exact ⟨st, stm, h1⟩
    · exact ih h2 he

theorem getCalls_ok_getCmds_ok {t : Task} {calls : List TaskCall}
    (h : t.GetCalls = .ok calls) : ∃ cmds, t.GetCmds = .ok cmds := by
  unfold Task.GetCalls at h
  obtain ⟨cmds, hc, _⟩ := map_ok_inv h
  exact ⟨cmds, hc⟩

theorem getCmds_both {t : Task} (h1 : t.Cmd.isSome = true) (h2 : t.Cmds.isSome = true) :
    t.GetCmds = .error .fatalBothCmdAndCmds := by
  unfold Task.GetCmds
  simp [h1, h2]

/-! ### Counting unknown-task icons for a flat (non-namespaced) target. -/

theorem ne_of_hasColon_ne {a b : String} (ha : hasColon a = true) (hb : hasColon b = false) :
    a ≠ b := by
  intro he
  subst he
  rw [ha] at hb
  cases hb

theorem enc_count_flat {d : String} {tf : Taskfile} {st : RunState} {tn : String}
    {c : TaskCall} {f s : String} {st' : RunState}
    (hd : hasColon d = false)
    (hnotask : (List.lookup d tf.Tasks).isSome = false)
    (hcoll : hasColon c.TaskName = true → replaceColons c.TaskName ≠ d)
    (h : EncapsulatePassedVars tf st tn c f s = .ok st') :
    countUnknownIcon d st'.out = countUnknownIcon d st.out + (c.TaskName == d).toNat := by
  rcases enc_ok_cases h with ⟨hcol, subs, hlk, ⟨_, rfl⟩ | ⟨_, rfl⟩⟩ |
    ⟨hcol, ⟨hfound, rfl⟩ | ⟨hnot, rfl⟩⟩
  · have : c.TaskName ≠ d := ne_of_hasColon_ne hcol hd
    simp [countUnknownIcon_append, countUnknownIcon_encSeg, this]
  · have h1 : c.TaskName ≠ d := ne_of_hasColon_ne hcol hd
    have h2 : replaceColons c.TaskName ≠ d := hcoll hcol
    simp [countUnknownIcon_append, countUnknownIcon_encSeg, countUnknownIcon_single, h1, h2]
  · have : c.TaskName ≠ d := by
      intro he
      subst he
      rw [hfound] at hnotask
      cases hnotask
    simp [countUnknownIcon_append, countUnknownIcon_encSeg, this]
  · by_cases he : c.TaskName = d
    · subst he
      simp [countUnknownIcon_append, countUnknownIcon_encSeg, countUnknownIcon_single]
    · simp [countUnknownIcon_append, countUnknownIcon_encSeg, countUnknownIcon_single, he]

theorem runEnc_count_flat {d : String} {tf : Taskfile}
    (hd : hasColon d = false) (hnotask : (List.lookup d tf.Tasks).isSome = false) :
    ∀ {L : List EncArgs} {st st' : RunState},
    (∀ a ∈ L, hasColon a.call.TaskName = true → replaceColons a.call.TaskName ≠ d) →
    runEnc tf st L = .ok st' →
    countUnknownIcon d st'.out
      = countUnknownIcon d st.out + L.countP (fun a => a.call.TaskName == d) := by
  intro L
  induction L with
  | nil => intro st st' _ h; cases h; simp
  | cons a rest ih =>
    intro st st' hcoll h
    obtain ⟨stm, h1, h2⟩ := runEnc_cons_inv h
    have e1 := enc_count_flat hd hnotask (hcoll a (List.mem_cons_self a rest)) h1
    have e2 := ih (fun b hb => hcoll b (List.mem_cons_of_mem a hb)) h2
    rw [e2, e1, List.countP_cons]
    by_cases he : a.call.TaskName = d <;> simp [he] <;> omega

theorem countP_depArgs (n : String) (deps : List TaskCall) (p : TaskCall → Bool) :
    (depArgs n deps).countP (fun a => p a.call) = deps.countP p := by
  unfold depArgs
  rw [List.countP_map]
  rfl

theorem countP_callArgs (n : String) (calls : List TaskCall) (p : TaskCall → Bool) :
    (callArgs n calls).countP (fun a => p a.call) = calls.countP p := by
  unfold callArgs
  rw [List.countP_map]
  have : calls.enum.countP (fun ic => p ic.2) = (calls.enum.map Prod.snd).countP p := by
    rw [List.countP_map]; rfl
  rw [show ((fun a => p a.call) ∘ fun ic : Nat × TaskCall =>
      (⟨n, ic.2, "calls (" ++ toString (ic.1 + 1) ++ ")", callSecondLabel⟩ : EncArgs))
    = fun ic : Nat × TaskCall => p ic.2 from rfl]
  rw [this, List.enum_map_snd]

theorem mem_of_mem_depArgs {n : String} {deps : List TaskCall} {a : EncArgs}
    (h : a ∈ depArgs n deps) : a.call ∈ deps := by
  obtain ⟨c, hc, rfl⟩ := List.mem_map.mp h
  exact hc

theorem mem_of_mem_callArgs {n : String} {calls : List TaskCall} {a : EncArgs}
    (h : a ∈ callArgs n calls) : a.call ∈ calls := by
  obtain ⟨ic, hic, rfl⟩ := List.mem_map.mp h
  have : ic.2 ∈ calls.enum.map Prod.snd := List.mem_map.mpr ⟨ic, hic, rfl⟩
  rw [List.enum_map_snd] at this
  exact this

theorem processTask_count_flat {d : String} {tf : Taskfile} {st : RunState} {n : String}
    {st' : RunState}
    (hd : hasColon d = false) (hnotask : (List.lookup d tf.Tasks).isSome = false)
    (hcoll : ∀ c ∈ taskCallsD (taskOf tf n),
      hasColon c.TaskName = true → replaceColons c.TaskName ≠ d)
    (h : processTask tf st n = .ok st') :
    countUnknownIcon d st'.out
      = countUnknownIcon d st.out
        + (taskCallsD (taskOf tf n)).countP (fun c => c.TaskName == d) := by
  obtain ⟨rvs, deps, calls, st5, _, hdep, hcall, h1, h2⟩ := processTask_ok_inv h
  have hlist : taskCallsD (taskOf tf n) = deps ++ calls := by
    unfold taskCallsD
    rw [hdep, hcall]
    rfl
  rw [reqVarFold_spec, headState_spec] at h1
  have e1 := runEnc_count_flat hd hnotask
    (fun a ha => hcoll a.call (by rw [hlist]; exact List.mem_append_left _ (mem_of_mem_depArgs ha))) h1
  have e2 := runEnc_count_flat hd hnotask
    (fun a ha => hcoll a.call (by rw [hlist]; exact List.mem_append_right _ (mem_of_mem_callArgs ha))) h2
  rw [e2, e1]
  have hc1 : (depArgs n deps).countP (fun a => a.call.TaskName == d)
      = deps.countP (fun c => c.TaskName == d) := countP_depArgs n deps fun c => c.TaskName == d
  have hc2 : (callArgs n calls).countP (fun a => a.call.TaskName == d)
      = calls.countP (fun c => c.TaskName == d) := countP_callArgs n calls fun c => c.TaskName == d
  simp only [countUnknownIcon_append, countUnknownIcon_headSeg, countUnknownIcon_reqSeg,
    hc1, hc2, hlist, List.countP_append]
  omega

theorem runTasks_count_flat {d : String} {tf : Taskfile}
    (hd : hasColon d = false) (hnotask : (List.lookup d tf.Tasks).isSome = false) :
    ∀ {names : List String} {st st' : RunState},
    (∀ n ∈ names, ∀ c ∈ taskCallsD (taskOf tf n),
      hasColon c.TaskName = true → replaceColons c.TaskName ≠ d) →
    runTasks tf names st = .ok st' →
    countUnknownIcon d st'.out
      = countUnknownIcon d st.out
        + (names.flatMap fun n => taskCallsD (taskOf tf n)).countP (fun c => c.TaskName == d) := by
  intro names
  induction names with
  | nil => intro st st' _ h; cases h; simp
  | cons m rest ih =>
    intro st st' hcoll h
    obtain ⟨stm, h1, h2⟩ := runTasks_cons_inv h
    have e1 := processTask_count_flat hd hnotask
      (hcoll m (List.mem_cons_self m rest)) h1
    have e2 := ih (fun n hn => hcoll n (List.mem_cons_of_mem m hn)) h2
    rw [e2, e1]
    simp only [List.flatMap_cons, List.countP_append]
    omega

/-! ### Counting unknown-task icons for a namespaced target, with the memo. -/

theorem any_map_gen {α β : Type} (g : α → β) (l : List α) (p : β → Bool) :
    (l.map g).any p = l.any fun x => p (g x) := by
  induction l with
  | nil => rfl
  | cons a t ih => simp [ih]

theorem contains_append_str (l1 l2 : List String) (a : String) :
    (l1 ++ l2).contains a = (l1.contains a || l2.contains a) := by
  induction l1 with
  | nil => simp
  | cons b t ih => by_cases h : b = a <;> simp_all [List.contains_cons, Bool.or_assoc]

theorem split_join_char : ∀ l : List Char, l.any (fun c => c = ':') = true →
    (l.takeWhile fun c => c ≠ ':') ++ ':' :: (l.dropWhile fun c => c ≠ ':').tail = l := by
  intro l
  induction l with
  | nil => intro h; cases h
  | cons a t ih =>
    intro h
    by_cases ha : a = ':'
    · subst ha
      simp [List.takeWhile_cons, List.dropWhile_cons]
    · have ht : t.any (fun c => c = ':') = true := by
        simp only [List.any_cons] at h
        rcases Bool.or_eq_true_iff.mp h with h1 | h1
        · exact absurd (by simpa using h1) ha
        · exact h1
      simp only [List.takeWhile_cons, List.dropWhile_cons]
      have hpa : (decide (a ≠ ':')) = true := by simp [ha]
      simp only [hpa, if_true, List.cons_append]
      rw [ih ht]

theorem nsOf_colon_subOf {t : String} (h : hasColon t = true) :
    nsOf t ++ ":" ++ subOf t = t := by
  apply String.ext
  rw [String.data_append, String.data_append]
  show ((t.data.takeWhile fun c => c ≠ ':') ++ (":" : String).data
      ++ (t.data.dropWhile fun c => c ≠ ':').tail) = t.data
  rw [show ((":" : String).data = [':']) from rfl]
  rw [List.append_assoc]
  exact split_join_char t.data h

theorem taskName_eq_target {t ns sub : String} (hns : hasColon ns = false)
    (hcol : hasColon t = true) (h1 : nsOf t = ns) (h2 : subOf t = sub) :
    t = ns ++ ":" ++ sub := by
  rw [← h1, ← h2, nsOf_colon_subOf hcol]

theorem memoHas_setM_self (m : Memo) (ns sub : String) (v : List String) :
    memoHas (setM ns v m) ns sub = v.contains sub := by
  simp [memoHas, lookup_setM_self]

theorem memoHas_setM_ne {k ns : String} (m : Memo) (sub : String) (v : List String)
    (hne : ns ≠ k) : memoHas (setM k v m) ns sub = memoHas m ns sub := by
  simp [memoHas, lookup_setM_ne k ns v hne]

theorem enc_count_ns {ns sub : String} {tf : Taskfile} {st : RunState} {tn : String}
    {c : TaskCall} {f s : String} {st' : RunState}
    (hns : hasColon ns = false)
    (hcoll : replaceColons c.TaskName = replaceColons (ns ++ ":" ++ sub) →
      c.TaskName = ns ++ ":" ++ sub)
    (h : EncapsulatePassedVars tf st tn c f s = .ok st') :
    countUnknownIcon (replaceColons (ns ++ ":" ++ sub)) st'.out
      = countUnknownIcon (replaceColons (ns ++ ":" ++ sub)) st.out
        + ((c.TaskName == ns ++ ":" ++ sub) && !(memoHas st.memo ns sub)).toNat
    ∧ memoHas st'.memo ns sub
      = (memoHas st.memo ns sub || (c.TaskName == ns ++ ":" ++ sub)) := by
  have htar : hasColon (ns ++ ":" ++ sub) = true := hasColon_append_colon ns sub
  rcases enc_ok_cases h with ⟨hcol, subs, hlk, ⟨hc2, rfl⟩ | ⟨hc2, rfl⟩⟩ |
    ⟨hcol, ⟨hfound, rfl⟩ | ⟨hnot, rfl⟩⟩
  · by_cases he : c.TaskName = ns ++ ":" ++ sub
    · have hn : nsOf c.TaskName = ns := by rw [he]; exact nsOf_append_colon sub hns
      have hs : subOf c.TaskName = sub := by rw [he]; exact subOf_append_colon sub hns
      have hmh : memoHas st.memo ns sub = true := by
        rw [← hn, ← hs]
        unfold memoHas
        rw [hlk, Option.getD_some]
        exact hc2
      simp [countUnknownIcon_append, countUnknownIcon_encSeg, he, hmh]
    · have hb : (c.TaskName == ns ++ ":" ++ sub) = false := by simp [he]
      simp [countUnknownIcon_append, countUnknownIcon_encSeg, hb]
  · by_cases he : c.TaskName = ns ++ ":" ++ sub
    · have hn : nsOf c.TaskName = ns := by rw [he]; exact nsOf_append_colon sub hns
      have hs : subOf c.TaskName = sub := by rw [he]; exact subOf_append_colon sub hns
      have hmh : memoHas st.memo ns sub = false := by
        rw [← hn, ← hs]
        unfold memoHas
        rw [hlk, Option.getD_some]
        exact hc2
      constructor
      · simp [countUnknownIcon_append, countUnknownIcon_encSeg, countUnknownIcon_single,
          he, hmh]
      · rw [hn, hs, memoHas_setM_self, contains_append_str]
        simp [hmh, he]
    · have hb : (c.TaskName == ns ++ ":" ++ sub) = false := by simp [he]
      have hicon : replaceColons c.TaskName ≠ replaceColons (ns ++ ":" ++ sub) := by
        intro hr
        exact he (hcoll hr)
      constructor
      · simp [countUnknownIcon_append, countUnknownIcon_encSeg, countUnknownIcon_single,
          hicon, hb]
      · by_cases hn : nsOf c.TaskName = ns
        · have hsne : subOf c.TaskName ≠ sub := by
            intro hs
            exact he (taskName_eq_target hns hcol hn hs)
          rw [hn, memoHas_setM_self, contains_append_str]
          have hb2 : (List.contains [subOf c.TaskName] sub) = false := by
            simp [List.contains_cons]
            exact fun hx => hsne hx.symm
          rw [hb2]
          have : memoHas st.memo ns sub = subs.contains sub := by
            rw [← hn]
            unfold memoHas
            rw [hlk, Option.getD_some]
          simp [this, hb]
        · rw [memoHas_setM_ne _ _ _ (fun hx => hn hx.symm)]
          simp [hb]
  · have he : c.TaskName ≠ ns ++ ":" ++ sub := ne_of_hasColon_ne htar hcol |>.symm
    have hb : (c.TaskName == ns ++ ":" ++ sub) = false := by simp [he]
    simp [countUnknownIcon_append, countUnknownIcon_encSeg, hb]
  · have he : c.TaskName ≠ ns ++ ":" ++ sub := ne_of_hasColon_ne htar hcol |>.symm
    have hb : (c.TaskName == ns ++ ":" ++ sub) = false := by simp [he]
    have hicon : c.TaskName ≠ replaceColons (ns ++ ":" ++ sub) := by
      intro hr
      rw [← replaceColons_of_no_colon hcol] at hr
      exact he (hcoll hr)
    simp [countUnknownIcon_append, countUnknownIcon_encSeg, countUnknownIcon_single,
      hicon, hb]

theorem runEnc_count_ns {ns sub : String} {tf : Taskfile} (hns : hasColon ns = false) :
    ∀ {L : List EncArgs} {st st' : RunState},
    (∀ a ∈ L, replaceColons a.call.TaskName = replaceColons (ns ++ ":" ++ sub) →
      a.call.TaskName = ns ++ ":" ++ sub) →
    runEnc tf st L = .ok st' →
    countUnknownIcon (replaceColons (ns ++ ":" ++ sub)) st'.out
      = countUnknownIcon (replaceColons (ns ++ ":" ++ sub)) st.out
        + ((L.any fun a => a.call.TaskName == ns ++ ":" ++ sub)
            && !(memoHas st.memo ns sub)).toNat
    ∧ memoHas st'.memo ns sub
      = (memoHas st.memo ns sub || (L.any fun a => a.call.TaskName == ns ++ ":" ++ sub)) := by
  intro L
  induction L with
  | nil => intro st st' _ h; cases h; simp
  | cons a rest ih =>
    intro st st' hcoll h
    obtain ⟨stm, h1, h2⟩ := runEnc_cons_inv h
    obtain ⟨e1, m1⟩ := enc_count_ns hns (hcoll a (List.mem_cons_self a rest)) h1
    obtain ⟨e2, m2⟩ := ih (fun b hb => hcoll b (List.mem_cons_of_mem a hb)) h2
    rw [List.any_cons]
    constructor
    · rw [e2, e1, m1]
      cases hb1 : (a.call.TaskName == ns ++ ":" ++ sub) <;>
        cases hb2 : (rest.any fun b => b.call.TaskName == ns ++ ":" ++ sub) <;>
        cases hb3 : memoHas st.memo ns sub <;> simp <;> omega
    · rw [m2, m1]
      cases hb1 : (a.call.TaskName == ns ++ ":" ++ sub) <;>
        cases hb2 : (rest.any fun b => b.call.TaskName == ns ++ ":" ++ sub) <;>
        cases hb3 : memoHas st.memo ns sub <;> simp

theorem any_depArgs (n : String) (deps : List TaskCall) (p : TaskCall → Bool) :
    ((depArgs n deps).any fun a => p a.call) = deps.any p := by
  unfold depArgs
  rw [any_map_gen]

theorem any_callArgs (n : String) (calls : List TaskCall) (p : TaskCall → Bool) :
    ((callArgs n calls).any fun a => p a.call) = calls.any p := by
  unfold callArgs
  rw [any_map_gen]
  have : (calls.enum.any fun ic => p ic.2) = (calls.enum.map Prod.snd).any p := by
    rw [any_map_gen]
  rw [show (fun x : Nat × TaskCall =>
      p (EncArgs.call ⟨n, x.2, "calls (" ++ toString (x.1 + 1) ++ ")", callSecondLabel⟩))
    = fun ic : Nat × TaskCall => p ic.2 from rfl]
  rw [this, List.enum_map_snd]

theorem processTask_count_ns {ns sub : String} {tf : Taskfile} {st : RunState} {n : String}
    {st' : RunState} (hns : hasColon ns = false)
    (hcoll : ∀ c ∈ taskCallsD (taskOf tf n),
      replaceColons c.TaskName = replaceColons (ns ++ ":" ++ sub) →
      c.TaskName = ns ++ ":" ++ sub)
    (h : processTask tf st n = .ok st') :
    countUnknownIcon (replaceColons (ns ++ ":" ++ sub)) st'.out
      = countUnknownIcon (replaceColons (ns ++ ":" ++ sub)) st.out
        + (((taskCallsD (taskOf tf n)).any fun c => c.TaskName == ns ++ ":" ++ sub)
            && !(memoHas st.memo ns sub)).toNat
    ∧ memoHas st'.memo ns sub
      = (memoHas st.memo ns sub
          || ((taskCallsD (taskOf tf n)).any fun c => c.TaskName == ns ++ ":" ++ sub)) := by
  obtain ⟨rvs, deps, calls, st5, _, hdep, hcall, h1, h2⟩ := processTask_ok_inv h
  have hlist : taskCallsD (taskOf tf n) = deps ++ calls := by
    unfold taskCallsD
    rw [hdep, hcall]
    rfl
  rw [reqVarFold_spec, headState_spec] at h1
  obtain ⟨e1, m1⟩ := runEnc_count_ns hns
    (fun a ha => hcoll a.call (by rw [hlist]; exact List.mem_append_left _ (mem_of_mem_depArgs ha))) h1
  obtain ⟨e2, m2⟩ := runEnc_count_ns hns
    (fun a ha => hcoll a.call (by rw [hlist]; exact List.mem_append_right _ (mem_of_mem_callArgs ha))) h2
  have ha1 : ((depArgs n deps).any fun a => a.call.TaskName == ns ++ ":" ++ sub)
      = deps.any fun c => c.TaskName == ns ++ ":" ++ sub :=
    any_depArgs n deps fun c => c.TaskName == ns ++ ":" ++ sub
  have ha2 : ((callArgs n calls).any fun a => a.call.TaskName == ns ++ ":" ++ sub)
      = calls.any fun c => c.TaskName == ns ++ ":" ++ sub :=
    any_callArgs n calls fun c => c.TaskName == ns ++ ":" ++ sub
  rw [ha1] at e1 m1
  rw [ha2] at e2 m2
  simp only [countUnknownIcon_append, countUnknownIcon_headSeg, countUnknownIcon_reqSeg] at e1
  have hmemo : memoHas st.memo ns sub
      = memoHas (⟨st.cnt, st.memo, st.out ++ headSeg tf n ++ reqSeg n rvs⟩ : RunState).memo ns sub := rfl
  rw [hlist, List.any_append]
  constructor
  · rw [e2, e1, m1]
    cases hb1 : (deps.any fun c => c.TaskName == ns ++ ":" ++ sub) <;>
      cases hb2 : (calls.any fun c => c.TaskName == ns ++ ":" ++ sub) <;>
      cases hb3 : memoHas st.memo ns sub <;> simp <;> omega
  · rw [m2, m1]
    cases hb1 : (deps.any fun c => c.TaskName == ns ++ ":" ++ sub) <;>
      cases hb2 : (calls.any fun c => c.TaskName == ns ++ ":" ++ sub) <;>
      cases hb3 : memoHas st.memo ns sub <;> simp

theorem runTasks_count_ns {ns sub : String} {tf : Taskfile} (hns : hasColon ns = false) :
    ∀ {names : List String} {st st' : RunState},
    (∀ n ∈ names, ∀ c ∈ taskCallsD (taskOf tf n),
      replaceColons c.TaskName = replaceColons (ns ++ ":" ++ sub) →
      c.TaskName = ns ++ ":" ++ sub) →
    runTasks tf names st = .ok st' →
    countUnknownIcon (replaceColons (ns ++ ":" ++ sub)) st'.out
      = countUnknownIcon (replaceColons (ns ++ ":" ++ sub)) st.out
        + (((names.flatMap fun n => taskCallsD (taskOf tf n)).any
              fun c => c.TaskName == ns ++ ":" ++ sub)
            && !(memoHas st.memo ns sub)).toNat
    ∧ memoHas st'.memo ns sub
      = (memoHas st.memo ns sub
          || ((names.flatMap fun n => taskCallsD (taskOf tf n)).any
              fun c => c.TaskName == ns ++ ":" ++ sub)) := by
  intro names
  induction names with
  | nil => intro st st' _ h; cases h; simp
  | cons m rest ih =>
    intro st st' hcoll h
    obtain ⟨stm, h1, h2⟩ := runTasks_cons_inv h
    obtain ⟨e1, m1⟩ := processTask_count_ns hns (hcoll m (List.mem_cons_self m rest)) h1
    obtain ⟨e2, m2⟩ := ih (fun n hn => hcoll n (List.mem_cons_of_mem m hn)) h2
    rw [List.flatMap_cons, List.any_append]
    constructor
    · rw [e2, e1, m1]
      cases hb1 : ((taskCallsD (taskOf tf m)).any fun c => c.TaskName == ns ++ ":" ++ sub) <;>
        cases hb2 : ((rest.flatMap fun n => taskCallsD (taskOf tf n)).any
            fun c => c.TaskName == ns ++ ":" ++ sub) <;>
        cases hb3 : memoHas st.memo ns sub <;> simp <;> omega
    · rw [m2, m1]
      cases hb1 : ((taskCallsD (taskOf tf m)).any fun c => c.TaskName == ns ++ ":" ++ sub) <;>
        cases hb2 : ((rest.flatMap fun n => taskCallsD (taskOf tf n)).any
            fun c => c.TaskName == ns ++ ":" ++ sub) <;>
        cases hb3 : memoHas st.memo ns sub <;> simp

theorem lookup_memoInit_not_mem {k : String} : ∀ {incs : List String} {m : Memo},
    k ∉ incs → List.lookup k (memoInit incs m) = List.lookup k m := by
  intro incs
  induction incs with
  | nil => intro m _; rfl
  | cons i t ih =>
    intro m hk
    simp only [memoInit, List.foldl_cons]
    have h1 : k ∉ t := fun hx => hk (List.mem_cons_of_mem i hx)
    have h2 : k ≠ i := fun hx => hk (hx ▸ List.mem_cons_self i t)
    have := ih (m := setM i [] m) h1
    simp only [memoInit] at this
    rw [this, lookup_setM_ne i k [] h2]

theorem lookup_memoInit_mem {k : String} : ∀ {incs : List String} {m : Memo},
    k ∈ incs → List.lookup k (memoInit incs m) = some [] := by
  intro incs
  induction incs with
  | nil => intro m hk; cases hk
  | cons i t ih =>
    intro m hk
    by_cases ht : k ∈ t
    · simp only [memoInit, List.foldl_cons]
      have := ih (m := setM i [] m) ht
      simpa only [memoInit] using this
    · have hki : k = i := by
        rcases List.mem_cons.mp hk with h | h
        · exact h
        · exact absurd h ht
      subst hki
      simp only [memoInit, List.foldl_cons]
      have := @lookup_memoInit_not_mem _ t (setM k [] m) ht
      simp only [memoInit] at this
      rw [this, lookup_setM_self]

theorem memoHas_memoInit_mem {k sub : String} {incs : List String} {m : Memo}
    (hk : k ∈ incs) : memoHas (memoInit incs m) k sub = false := by
  simp [memoHas, lookup_memoInit_mem hk]

theorem memoAgree_setM {incs : List String} {m1 m2 : Memo} (h : MemoAgree incs m1 m2)
    (k : String) (v : List String) : MemoAgree incs (setM k v m1) (setM k v m2) := by
  intro k' hk'
  by_cases he : k' = k
  · subst he
    rw [lookup_setM_self, lookup_setM_self]
  · rw [lookup_setM_ne k k' v he, lookup_setM_ne k k' v he]
    exact h k' hk'

theorem enc_parallel {incs : List String} {tf : Taskfile} {st1 st2 : RunState}
    {tn : String} {c : TaskCall} {f s : String}
    (hrel : StRel incs st1 st2)
    (hdecl : hasColon c.TaskName = true → nsOf c.TaskName ∈ incs) :
    (∃ e, EncapsulatePassedVars tf st1 tn c f s = .error e ∧
          EncapsulatePassedVars tf st2 tn c f s = .error e)
    ∨ (∃ st1' st2', EncapsulatePassedVars tf st1 tn c f s = .ok st1' ∧
        EncapsulatePassedVars tf st2 tn c f s = .ok st2' ∧ StRel incs st1' st2') := by
  obtain ⟨hcnt, hout, hag⟩ := hrel
  unfold EncapsulatePassedVars
  rw [encBody_spec, encBody_spec, hcnt, hout]
  by_cases hcol : hasColon c.TaskName
  · simp only [hcol, if_true]
    have hlk := hag (nsOf c.TaskName) (hdecl hcol)
    rw [hlk]
    cases hlk2 : List.lookup (nsOf c.TaskName) st2.memo with
    | none => exact Or.inl ⟨.panicNilMapWrite, rfl, rfl⟩
    | some subs =>
      by_cases hc2 : subs.contains (subOf c.TaskName)
      · simp only [hc2, if_true]
        exact Or.inr ⟨_, _, rfl, rfl, rfl, rfl, hag⟩
      · have hc2' : subs.contains (subOf c.TaskName) = false := by simpa using hc2
        simp only [hc2', Bool.false_eq_true, if_false]
        refine Or.inr ⟨_, _, rfl, rfl, rfl, rfl, ?_⟩
        exact memoAgree_setM hag _ _
  · have hcol' : hasColon c.TaskName = false := by simpa using hcol
    simp only [hcol', Bool.false_eq_true, if_false]
    by_cases hlk : (List.lookup (replaceColons c.TaskName) tf.Tasks).isSome
    · simp only [hlk, if_true]
      exact Or.inr ⟨_, _, rfl, rfl, rfl, rfl, hag⟩
    · have hlk' : (List.lookup (replaceColons c.TaskName) tf.Tasks).isSome = false :=
        Bool.not_eq_true _ ▸ eq_false_of_ne_true hlk
      simp only [hlk', Bool.false_eq_true, if_false]
      exact Or.inr ⟨_, _, rfl, rfl, rfl, rfl, hag⟩

theorem runEnc_cons_error {tf : Taskfile} {st : RunState} {a : EncArgs} {rest : List EncArgs}
    {e : Err} (h : EncapsulatePassedVars tf st a.taskName a.call a.fstLabel a.sndLabel = .error e) :
    runEnc tf st (a :: rest) = .error e := by
  simp [runEnc, h, Bind.bind, Except.bind]

theorem runEnc_parallel {incs : List String} {tf : Taskfile} :
    ∀ {L : List EncArgs} {st1 st2 : RunState},
    StRel incs st1 st2 →
    (∀ a ∈ L, hasColon a.call.TaskName = true → nsOf a.call.TaskName ∈ incs) →
    (∃ e, runEnc tf st1 L = .error e ∧ runEnc tf st2 L = .error e)
    ∨ (∃ st1' st2', runEnc tf st1 L = .ok st1' ∧ runEnc tf st2 L = .ok st2' ∧
        StRel incs st1' st2') := by
  intro L
  induction L with
  | nil => intro st1 st2 hrel _; exact Or.inr ⟨st1, st2, rfl, rfl, hrel⟩
  | cons a rest ih =>
    intro st1 st2 hrel hdecl
    rcases enc_parallel hrel (hdecl a (List.mem_cons_self a rest)) with
      ⟨e, he1, he2⟩ | ⟨s1', s2', ho1, ho2, hrel'⟩
    · exact Or.inl ⟨e, runEnc_cons_error he1, runEnc_cons_error he2⟩
    · have step : ∀ (st : RunState) (s' : RunState),
          EncapsulatePassedVars tf st a.taskName a.call a.fstLabel a.sndLabel = .ok s' →
          runEnc tf st (a :: rest) = runEnc tf s' rest := by
        intro st s' hs
        simp [runEnc, hs, Bind.bind, Except.bind]
      rw [step st1 s1' ho1, step st2 s2' ho2]
      exact ih hrel' fun b hb => hdecl b (List.mem_cons_of_mem a hb)

theorem processTask_parallel {incs : List String} {tf : Taskfile} {st1 st2 : RunState}
    {n : String} (hrel : StRel incs st1 st2)
    (hdecl : ∀ c ∈ taskCallsD (taskOf tf n),
      hasColon c.TaskName = true → nsOf c.TaskName ∈ incs) :
    (∃ e, processTask tf st1 n = .error e ∧ processTask tf st2 n = .error e)
    ∨ (∃ st1' st2', processTask tf st1 n = .ok st1' ∧ processTask tf st2 n = .ok st2' ∧
        StRel incs st1' st2') := by
  obtain ⟨hcnt, hout, hag⟩ := hrel
  unfold processTask
  simp only [Bind.bind, Except.bind]
  cases hrv : (taskOf tf n).GetRequiredVars with
  | error e => exact Or.inl ⟨e, rfl, rfl⟩
  | ok rvs =>
    cases hdep : (taskOf tf n).GetDepCalls with
    | error e => exact Or.inl ⟨e, rfl, rfl⟩
    | ok deps =>
      dsimp only
      have hrel4 : StRel incs (reqVarFold n rvs (headState tf st1 n))
          (reqVarFold n rvs (headState tf st2 n)) := by
        rw [reqVarFold_spec, headState_spec, reqVarFold_spec, headState_spec]
        exact ⟨hcnt, by rw [hout], hag⟩
      have hdecl1 : ∀ a ∈ depArgs n deps,
          hasColon a.call.TaskName = true → nsOf a.call.TaskName ∈ incs := by
        intro a ha
        refine hdecl a.call ?_
        unfold taskCallsD
        rw [hdep]
        exact List.mem_append_left _ (mem_of_mem_depArgs ha)
      rcases @runEnc_parallel _ tf _ _ _ hrel4 hdecl1 with ⟨e, he1, he2⟩ | ⟨s1', s2', ho1, ho2, hrel'⟩
      · rw [he1, he2]
        exact Or.inl ⟨e, rfl, rfl⟩
      · rw [ho1, ho2]
        cases hcal : (taskOf tf n).GetCalls with
        | error e => exact Or.inl ⟨e, rfl, rfl⟩
        | ok calls =>
          dsimp only
          have hdecl2 : ∀ a ∈ callArgs n calls,
              hasColon a.call.TaskName = true → nsOf a.call.TaskName ∈ incs := by
            intro a ha
            refine hdecl a.call ?_
            unfold taskCallsD
            rw [hcal]
            exact List.mem_append_right _ (mem_of_mem_callArgs ha)
          rcases @runEnc_parallel _ tf _ _ _ hrel' hdecl2 with ⟨e, he1, he2⟩ | ⟨t1', t2', hq1, hq2, hrel2⟩
          · exact Or.inl ⟨e, he1, he2⟩
          · exact Or.inr ⟨t1', t2', hq1, hq2, hrel2⟩

theorem runTasks_parallel {incs : List String} {tf : Taskfile} :
    ∀ {names : List String} {st1 st2 : RunState},
    StRel incs st1 st2 →
    (∀ n ∈ names, ∀ c ∈ taskCallsD (taskOf tf n),
      hasColon c.TaskName = true → nsOf c.TaskName ∈ incs) →
    (∃ e, runTasks tf names st1 = .error e ∧ runTasks tf names st2 = .error e)
    ∨ (∃ st1' st2', runTasks tf names st1 = .ok st1' ∧ runTasks tf names st2 = .ok st2' ∧
        StRel incs st1' st2') := by
  intro names
  induction names with
  | nil => intro st1 st2 hrel _; exact Or.inr ⟨st1, st2, rfl, rfl, hrel⟩
  | cons m rest ih =>
    intro st1 st2 hrel hdecl
    rcases processTask_parallel hrel (hdecl m (List.mem_cons_self m rest)) with
      ⟨e, he1, he2⟩ | ⟨s1', s2', ho1, ho2, hrel'⟩
    · refine Or.inl ⟨e, ?_, ?_⟩ <;> simp [runTasks, Bind.bind, Except.bind, he1, he2]
    · have step : ∀ (st s' : RunState), processTask tf st m = .ok s' →
          runTasks tf (m :: rest) st = runTasks tf rest s' := by
        intro st s' hs
        simp [runTasks, hs, Bind.bind, Except.bind]
      rw [step st1 s1' ho1, step st2 s2' ho2]
      exact ih hrel' fun n hn => hdecl n (List.mem_cons_of_mem m hn)

/-! ### Last helpers: elements of successful extractions, sortedness of the
passed-variable bindings, and splitting the rendered text at its lines. -/

theorem mapE_ok_mem {α β : Type} {g : α → Except Err β} : ∀ {l : List α} {ys : List β}
    {y : β}, mapE g l = .ok ys → y ∈ ys → ∃ x ∈ l, g x = .ok y := by
  intro l
  induction l with
  | nil =>
    intro ys y h hy
    cases h
    cases hy
  | cons a t ih =>
    intro ys y h hy
    simp only [mapE, Bind.bind, Except.bind] at h
    cases ha : g a with
    | error e => rw [ha] at h; cases h
    | ok b =>
      rw [ha] at h
      cases ht : mapE g t with
      | error e => rw [ht] at h; cases h
      | ok bs =>
        rw [ht] at h
        cases h
        rcases List.mem_cons.mp hy with rfl | hy2
        · exact ⟨a, List.mem_cons_self a t, ha⟩
        · obtain ⟨x, hx, hgx⟩ := ih ht hy2
          exact ⟨x, List.mem_cons_of_mem a hx, hgx⟩

theorem mapE_strs (strs : List String) : mapE strAssert (strs.map Yaml.str) = .ok strs := by
  induction strs with
  | nil => rfl
  | cons a t ih => simp [mapE, strAssert, Bind.bind, Except.bind, ih]

theorem varsFromMap_names_sorted (kvs : List (String × Yaml)) :
    List.Pairwise StrLe ((varsFromMap kvs).map Variable.Name) := by
  unfold varsFromMap
  rw [List.map_map]
  have he : (Variable.Name ∘ fun nm => (⟨nm, (List.lookup nm kvs).getD Yaml.null⟩ : Variable))
      = id := rfl
  rw [he, List.map_id]
  exact @List.sorted_insertionSort _ StrLe _ strLe_isTotal strLe_isTrans (kvs.map Prod.fst)

theorem depCallOfEntry_vars {d : Yaml} {cc : TaskCall} (h : depCallOfEntry d = .ok cc) :
    cc.Vars = [] ∨ ∃ m, cc.Vars = varsFromMap m := by
  cases d with
  | str s =>
    simp only [depCallOfEntry] at h
    cases h
    exact Or.inl rfl
  | map kvs =>
    simp only [depCallOfEntry] at h
    cases hlk : List.lookup "task" kvs with
    | none => rw [hlk] at h; cases h
    | some v =>
      rw [hlk] at h
      cases v with
      | str tn =>
        cases hlv : List.lookup "vars" kvs with
        | none => rw [hlv] at h; cases h; exact Or.inl rfl
        | some w =>
          rw [hlv] at h
          cases w with
          | map m => cases h; exact Or.inr ⟨m, rfl⟩
          | str s => cases h; exact Or.inl rfl
          | int n => cases h; exact Or.inl rfl
          | bool b => cases h; exact Or.inl rfl
          | null => cases h; exact Or.inl rfl
          | list xs => cases h; exact Or.inl rfl
      | int n => cases h
      | bool b => cases h
      | null => cases h
      | list xs => cases h
      | map m2 => cases h
  | int n => simp only [depCallOfEntry] at h; cases h
  | bool b => simp only [depCallOfEntry] at h; cases h
  | null => simp only [depCallOfEntry] at h; cases h
  | list xs => simp only [depCallOfEntry] at h; cases h

theorem callOfCmd_vars {d : Yaml} {cc : TaskCall} (h : callOfCmd d = some cc) :
    cc.Vars = [] ∨ ∃ m, cc.Vars = varsFromMap m := by
  cases d with
  | map kvs =>
    simp only [callOfCmd] at h
    cases hlk : List.lookup "task" kvs with
    | none => rw [hlk] at h; cases h
    | some v =>
      rw [hlk] at h
      cases v with
      | str tn =>
        cases hlv : List.lookup "vars" kvs with
        | none => rw [hlv] at h; cases h; exact Or.inl rfl
        | some w =>
          rw [hlv] at h
          cases w with
          | map m => cases h; exact Or.inr ⟨m, rfl⟩
          | str s => cases h; exact Or.inl rfl
          | int n => cases h; exact Or.inl rfl
          | bool b => cases h; exact Or.inl rfl
          | null => cases h; exact Or.inl rfl
          | list xs => cases h; exact Or.inl rfl
      | int n => cases h
      | bool b => cases h
      | null => cases h
      | list xs => cases h
      | map m2 => cases h
  | str s => simp only [callOfCmd] at h; cases h
  | int n => simp only [callOfCmd] at h; cases h
  | bool b => simp only [callOfCmd] at h; cases h
  | null => simp only [callOfCmd] at h; cases h
  | list xs => simp only [callOfCmd] at h; cases h

theorem intercalate_go_eq (s : String) : ∀ (as : List String) (acc : String),
    String.intercalate.go acc s as = acc ++ restCat s as := by
  intro as
  induction as with
  | nil => intro acc; simp [String.intercalate.go, restCat, String.append_empty]
  | cons a t ih =>
    intro acc
    show String.intercalate.go (acc ++ s ++ a) s t = acc ++ restCat s (a :: t)
    rw [ih (acc ++ s ++ a)]
    simp [restCat, String.append_assoc]

theorem intercalate_cons (s a : String) (as : List String) :
    String.intercalate s (a :: as) = a ++ restCat s as := by
  show String.intercalate.go a s as = a ++ restCat s as
  exact intercalate_go_eq s as a

theorem restCat_cons (s a : String) (l : List String) :
    restCat s (a :: l) = s ++ a ++ restCat s l := rfl

theorem renderDoc_cons (g : Nat → String) (a : Stmt) (l : List Stmt) :
    renderDoc g (a :: l) = renderLine g a.render ++ restCat "\n" (l.map fun s => renderLine g s.render) := by
  unfold renderDoc
  rw [List.map_cons, intercalate_cons]

theorem str_append_cancel_left {a x y : String} (h : a ++ x = a ++ y) : x = y := by
  apply String.ext
  have h2 := congrArg String.data h
  rw [String.data_append, String.data_append] at h2
  exact List.append_cancel_left h2

/-- C8: a document whose declared version differs from "3" (any other value,
or an absent version, which unmarshals to the zero value "") terminates
fatally before any statement is emitted: the translation yields the
unsupported-version error and no output text, regardless of the state of the
process-global memo and of the identifier generator. -/
theorem claim8_version_fatal (memo0 : Memo) (tf : Taskfile) (h : tf.Version ≠ "3") :
    TaskfileToD2Core memo0 tf = .error .fatalUnsupportedVersion ∧
    ∀ g : Nat → String, TaskfileToD2 memo0 tf g = .error .fatalUnsupportedVersion := by
  have h1 : TaskfileToD2Core memo0 tf = .error .fatalUnsupportedVersion := by
    unfold TaskfileToD2Core
    simp [h]
  refine ⟨h1, fun g => ?_⟩
  unfold TaskfileToD2
  rw [h1]
  rfl

/-- Witness for C8 at the concrete version-2 document. -/
theorem claim8_version_fatal_witness :
    TaskfileToD2Core [] tfVersion2 = .error .fatalUnsupportedVersion ∧
    TaskfileToD2 [] tfVersion2 canonGen = .error .fatalUnsupportedVersion :=
  ⟨(claim8_version_fatal [] tfVersion2 (by decide)).1,
   (claim8_version_fatal [] tfVersion2 (by decide)).2 canonGen⟩

/-- C9: a task with both the single-command form (`cmd`) and the multi-command
form (`cmds`) set makes `Task.GetCmds` terminate fatally when that task's
command list is resolved, and the whole translation returns no rendered
text (it ends in an error). -/
theorem claim9_both_cmds_fatal (memo0 : Memo) (tf : Taskfile) (n : String) (t : Task)
    (hnd : (tf.Tasks.map Prod.fst).Nodup)
    (hmem : (n, t) ∈ tf.Tasks) (hc1 : t.Cmd.isSome = true) (hc2 : t.Cmds.isSome = true) :
    t.GetCmds = .error .fatalBothCmdAndCmds ∧
    ∃ e, TaskfileToD2Core memo0 tf = .error e := by
  have hcmds := getCmds_both hc1 hc2
  refine ⟨hcmds, ?_⟩
  by_cases hv : tf.Version = "3"
  case neg => exact ⟨.fatalUnsupportedVersion, (claim8_version_fatal memo0 tf hv).1⟩
  refine core_err_of_runTasks hv ?_
  intro stF hrun
  obtain ⟨st0, st1, hpt⟩ := runTasks_all_ok hrun (mem_sortedTaskNames hmem)
  obtain ⟨rvs, deps, calls, st5, _, _, hcalls, _, _⟩ := processTask_ok_inv hpt
  have ht : taskOf tf n = t := by
    unfold taskOf
    rw [lookup_of_mem_nodup hmem hnd]
    rfl
  rw [ht] at hcalls
  obtain ⟨cmds, hcmds2⟩ := getCalls_ok_getCmds_ok hcalls
  rw [hcmds] at hcmds2
  cases hcmds2

/-- Witness for C9 at the concrete both-forms task. -/
theorem claim9_both_cmds_fatal_witness :
    taskBothCmds.GetCmds = .error .fatalBothCmdAndCmds ∧
    ∃ e, TaskfileToD2Core [] tfBothCmds = .error e :=
  claim9_both_cmds_fatal [] tfBothCmds "t" taskBothCmds (by decide)
    (List.mem_cons_self _ _) rfl rfl

/-- C3: a dependency or inline call whose target has the namespaced form
`ns:sub` with `ns` not a key of the includes mapping makes the run fail:
started on a fresh process (empty global memo), `TaskfileToD2` returns no
result, and the call's own emission step is precisely a write into the nil
classification-memo map, a panic. -/
theorem claim3_undeclared_namespace_panics (tf : Taskfile) (n : String) (t : Task)
    (c : TaskCall) (hnd : (tf.Tasks.map Prod.fst).Nodup)
    (hmem : (n, t) ∈ tf.Tasks) (hc : c ∈ taskCallsD t)
    (hcol : hasColon c.TaskName = true) (hns : nsOf c.TaskName ∉ tf.Includes) :
    (∃ e, TaskfileToD2Core [] tf = .error e) ∧
    (∀ (st : RunState) (tn fv sv : String), List.lookup (nsOf c.TaskName) st.memo = none →
      EncapsulatePassedVars tf st tn c fv sv = .error .panicNilMapWrite) := by
  refine ⟨?_, fun st tn fv sv hlk => enc_error_of_none hcol hlk⟩
  by_cases hv : tf.Version = "3"
  case neg => exact ⟨.fatalUnsupportedVersion, (claim8_version_fatal [] tf hv).1⟩
  refine core_err_of_runTasks hv ?_
  intro stF hrun
  have ht : taskOf tf n = t := by
    unfold taskOf
    rw [lookup_of_mem_nodup hmem hnd]
    rfl
  have hm : MemoKeysSub tf.Includes (initIncludes (headerState []) tf.GetIncludes).memo := by
    rw [initIncludes_spec]
    exact memoKeysSub_memoInit (memoKeysSub_nil _) fun i hi => hi
  exact runTasks_bad_ns (mem_sortedTaskNames hmem) (ht ▸ hc) hcol hns hm stF hrun

/-- Witness for C3 at the concrete undeclared-namespace document. -/
theorem claim3_undeclared_namespace_panics_witness :
    (∃ e, TaskfileToD2Core [] tfBadNs = .error e) ∧
    (∀ (st : RunState) (tn fv sv : String),
      List.lookup (nsOf (TaskCall.mk "ns:sub" []).TaskName) st.memo = none →
      EncapsulatePassedVars tfBadNs st tn ⟨"ns:sub", []⟩ fv sv = .error .panicNilMapWrite) :=
  claim3_undeclared_namespace_panics tfBadNs "t" taskBadNs ⟨"ns:sub", []⟩ (by decide)
    (List.mem_cons_self _ _) (by exact List.Mem.head _) (by decide) (by decide)

/-- C7 counterexample: the claim says a structured entry carrying a name but
no enumeration yields a RequiredVariable with no enumeration; on the code the
`variable["enum"].([]any)` assertion fails on the absent key and the program
panics, so `GetRequiredVars` returns no result. -/
theorem claim7_counterexample :
    taskReqNoEnum.GetRequiredVars = .error .panicTypeAssert := rfl

/-- C7 (amended): `Task.GetRequiredVars` maps the entries in order
(a fatal error at the first ill-shaped entry); a bare string yields a
RequiredVariable with no enumeration; a structured entry with a string `name`
and an `enum` list of strings yields the name plus those values; a structured
entry carrying a name but no `enum` key is a fatal internal error (the failed
type assertion), not a RequiredVariable with no enumeration; and an entry of
any other shape is a fatal internal error (`panic("")`). -/
theorem claim7_required_vars :
    (∀ t : Task, t.GetRequiredVars = mapE reqVarOfEntry t.RequiresVars)
    ∧ (∀ s : String, reqVarOfEntry (.str s) = .ok ⟨s, []⟩)
    ∧ (∀ (kvs : List (String × Yaml)) (nm : String) (strs : List String),
        List.lookup "name" kvs = some (.str nm) →
        List.lookup "enum" kvs = some (.list (strs.map Yaml.str)) →
        reqVarOfEntry (.map kvs) = .ok ⟨nm, strs⟩)
    ∧ (∀ (kvs : List (String × Yaml)) (nm : String),
        List.lookup "name" kvs = some (.str nm) →
        List.lookup "enum" kvs = none →
        reqVarOfEntry (.map kvs) = .error .panicTypeAssert)
    ∧ (∀ v : Yaml, (∀ s, v ≠ .str s) → (∀ kvs, v ≠ .map kvs) →
        reqVarOfEntry v = .error .panicEmptyMessage) := by
  refine ⟨fun t => rfl, fun s => rfl, ?_, ?_, ?_⟩
  · intro kvs nm strs hn he
    simp only [reqVarOfEntry, hn, he, mapE_strs]
    rfl
  · intro kvs nm hn he
    simp only [reqVarOfEntry, hn, he]
  · intro v hs hm
    cases v with
    | str s => exact absurd rfl (hs s)
    | map kvs => exact absurd rfl (hm kvs)
    | int n => rfl
    | bool b => rfl
    | null => rfl
    | list xs => rfl

/-- Witness for C7 at concrete entries. -/
theorem claim7_required_vars_witness :
    taskReqNoEnum.GetRequiredVars = mapE reqVarOfEntry taskReqNoEnum.RequiresVars
    ∧ reqVarOfEntry (.str "A") = .ok ⟨"A", []⟩
    ∧ reqVarOfEntry (.map [("enum", Yaml.list [Yaml.str "x"]), ("name", Yaml.str "B")])
        = .ok ⟨"B", ["x"]⟩
    ∧ reqVarOfEntry (.map [("name", Yaml.str "C")]) = .error .panicTypeAssert
    ∧ reqVarOfEntry (.int 3) = .error .panicEmptyMessage :=
  ⟨claim7_required_vars.1 taskReqNoEnum,
   claim7_required_vars.2.1 "A",
   claim7_required_vars.2.2.1 _ "B" ["x"] rfl rfl,
   claim7_required_vars.2.2.2.1 _ "C" rfl rfl,
   claim7_required_vars.2.2.2.2 (.int 3) (fun s h => Yaml.noConfusion h)
     (fun kvs h => Yaml.noConfusion h)⟩

/-- C5: a call target with no namespace separator that is not a key of the
task mapping receives an unknown-task icon statement at every reference, with
no memoization: the run emits exactly as many icon statements for it as there
are references (the hypothesis excludes namespaced calls that would render to
the same D2 node name, which are counted separately by the code). -/
theorem claim5_flat_unknown_every_reference (memo0 : Memo) (tf : Taskfile) (d : String)
    (doc : List Stmt) (m : Memo)
    (hd : hasColon d = false)
    (hnotask : (List.lookup d tf.Tasks).isSome = false)
    (hcoll : ∀ c ∈ runCallsOf tf, hasColon c.TaskName = true → replaceColons c.TaskName ≠ d)
    (hok : TaskfileToD2Core memo0 tf = .ok (doc, m)) :
    countUnknownIcon d doc = (runCallsOf tf).countP fun c => c.TaskName == d := by
  obtain ⟨hv, stF, hrun, hdoc, hm⟩ := core_ok_inv hok
  have hc := @runTasks_count_flat _ _ hd hnotask (sortedTaskNames tf) _ _
    (fun n hn c hc' => hcoll c (List.mem_flatMap.mpr ⟨n, hn, hc'⟩)) hrun
  subst hdoc
  rw [countUnknownIcon_append, hc, initIncludes_spec]
  have h0 : countUnknownIcon d (headerState memo0).out = 0 := by
    simp [headerState, countUnknownIcon]
  have h1 : countUnknownIcon d trailerStmts = 0 := by
    simp [trailerStmts, countUnknownIcon]
  show countUnknownIcon d ((headerState memo0).out ++ tf.GetIncludes.map Stmt.includeIcon)
      + _ + countUnknownIcon d trailerStmts = _
  rw [countUnknownIcon_append, h0, h1, countUnknownIcon_includeMap]
  have hfold : ((sortedTaskNames tf).flatMap fun n => taskCallsD (taskOf tf n))
      = runCallsOf tf := rfl
  rw [hfold]
  omega

/-- Witness for C5: the example document references "x" twice and gets two
icon statements. -/
theorem claim5_flat_unknown_every_reference_witness :
    countUnknownIcon "x" tfFlatDoc = (runCallsOf tfFlat).countP fun c => c.TaskName == "x" :=
  claim5_flat_unknown_every_reference [] tfFlat "x" tfFlatDoc tfFlatMemo (by decide)
    (by decide) (by decide) rfl

/-- C4: within one run started on a fresh process, a namespaced call target
`ns:sub` whose namespace is a declared include is annotated with the
unknown-task icon exactly once when the pair is referenced at all — on the
first reference, the pair is recorded in the memo, and later references from
any source task are skipped — and zero times otherwise (the hypothesis
excludes other call names that would render to the same D2 node name, which
the code counts under the same statement). -/
theorem claim4_namespaced_icon_once (tf : Taskfile) (ns sub : String)
    (doc : List Stmt) (m : Memo)
    (hns : hasColon ns = false)
    (hdecl : ns ∈ tf.Includes)
    (hcoll : ∀ c ∈ runCallsOf tf,
      replaceColons c.TaskName = replaceColons (ns ++ ":" ++ sub) →
      c.TaskName = ns ++ ":" ++ sub)
    (hok : TaskfileToD2Core [] tf = .ok (doc, m)) :
    countUnknownIcon (replaceColons (ns ++ ":" ++ sub)) doc
      = if ∃ c ∈ runCallsOf tf, c.TaskName = ns ++ ":" ++ sub then 1 else 0 := by
  obtain ⟨hv, stF, hrun, hdoc, hmm⟩ := core_ok_inv hok
  obtain ⟨hc, _⟩ := @runTasks_count_ns _ _ _ hns (sortedTaskNames tf) _ _
    (fun n hn c hc' => hcoll c (List.mem_flatMap.mpr ⟨n, hn, hc'⟩)) hrun
  subst hdoc
  have hmem0 : memoHas (initIncludes (headerState []) tf.GetIncludes).memo ns sub = false := by
    rw [initIncludes_spec]
    exact memoHas_memoInit_mem hdecl
  rw [hmem0] at hc
  rw [countUnknownIcon_append, hc, initIncludes_spec]
  have h0 : countUnknownIcon (replaceColons (ns ++ ":" ++ sub)) (headerState []).out = 0 := by
    simp [headerState, countUnknownIcon]
  have h1 : countUnknownIcon (replaceColons (ns ++ ":" ++ sub)) trailerStmts = 0 := by
    simp [trailerStmts, countUnknownIcon]
  show countUnknownIcon _ ((headerState []).out ++ tf.GetIncludes.map Stmt.includeIcon)
      + _ + countUnknownIcon _ trailerStmts = _
  rw [countUnknownIcon_append, h0, h1, countUnknownIcon_includeMap]
  have hfold : ((sortedTaskNames tf).flatMap fun n => taskCallsD (taskOf tf n))
      = runCallsOf tf := rfl
  rw [hfold]
  cases hb : ((runCallsOf tf).any fun c => c.TaskName == ns ++ ":" ++ sub) with
  | true =>
    obtain ⟨c, hcmem, hcb⟩ := List.any_eq_true.mp hb
    rw [if_pos ⟨c, hcmem, by simpa using hcb⟩]
    decide
  | false =>
    rw [if_neg]
    · decide
    · intro hx
      obtain ⟨c, hcmem, hcb⟩ := hx
      have h2 : ((runCallsOf tf).any fun c => c.TaskName == ns ++ ":" ++ sub) = true :=
        List.any_eq_true.mpr
          ⟨c, hcmem, show (c.TaskName == ns ++ ":" ++ sub) = true from beq_iff_eq.mpr hcb⟩
      rw [hb] at h2
      cases h2

/-- Witness for C4: the example document calls `ns:sub` from two tasks and
gets exactly one icon statement. -/
theorem claim4_namespaced_icon_once_witness :
    countUnknownIcon (replaceColons ("ns" ++ ":" ++ "sub")) tfNsTwiceDoc
      = if ∃ c ∈ runCallsOf tfNsTwice, c.TaskName = "ns" ++ ":" ++ "sub" then 1 else 0 :=
  claim4_namespaced_icon_once tfNsTwice "ns" "sub" tfNsTwiceDoc tfNsTwiceMemo (by decide)
    (by decide) (by decide) rfl

/-- C2 counterexample: the per-include container statements are emitted in
the includes map's iteration order, which Go does not sort (the include loop
ranges over the map directly); with iteration order ["b", "a"] the emitted
order is ["b", "a"], not strictly lexicographic. -/
theorem claim2_counterexample :
    Option.map includeIconsOf (corePart (TaskfileToD2Core [] tfIncludesBA)) = some ["b", "a"]
    ∧ ¬ List.Pairwise StrLe ["b", "a"] := by
  exact ⟨rfl, by decide⟩

/-- C2 (amended): the per-task blocks are emitted in sorted (strictly
lexicographic when the task keys are distinct, as Go map keys are) order of
task name regardless of the mapping's iteration order, but the per-include
container statements are emitted in the includes map's iteration order,
unsorted. -/
theorem claim2_emission_order (memo0 : Memo) (tf : Taskfile) (doc : List Stmt) (m : Memo)
    (hok : TaskfileToD2Core memo0 tf = .ok (doc, m)) :
    taskIconsOf doc = sortedTaskNames tf
    ∧ List.Pairwise StrLe (taskIconsOf doc)
    ∧ ((tf.Tasks.map Prod.fst).Nodup →
        List.Pairwise (fun a b => StrLe a b ∧ a ≠ b) (taskIconsOf doc))
    ∧ includeIconsOf doc = tf.GetIncludes := by
  obtain ⟨hv, stF, hrun, hdoc, hm⟩ := core_ok_inv hok
  obtain ⟨e1, e2⟩ := runTasks_icons hrun
  rw [initIncludes_spec] at e1 e2
  subst hdoc
  have hhead : taskIconsOf (headerState memo0).out = [] := rfl
  have hhead2 : includeIconsOf (headerState memo0).out = [] := rfl
  have htr : taskIconsOf trailerStmts = [] := rfl
  have htr2 : includeIconsOf trailerStmts = [] := rfl
  have hout1 : taskIconsOf (stF.out ++ trailerStmts) = sortedTaskNames tf := by
    rw [taskIconsOf_append, htr, e1]
    show taskIconsOf ((headerState memo0).out ++ tf.GetIncludes.map Stmt.includeIcon)
        ++ sortedTaskNames tf ++ [] = _
    rw [taskIconsOf_append, hhead, (icons_includeMap tf.GetIncludes).1]
    simp
  have hout2 : includeIconsOf (stF.out ++ trailerStmts) = tf.GetIncludes := by
    rw [includeIconsOf_append, htr2, e2]
    show includeIconsOf ((headerState memo0).out ++ tf.GetIncludes.map Stmt.includeIcon)
        ++ [] = _
    rw [includeIconsOf_append, hhead2, (icons_includeMap tf.GetIncludes).2]
    simp
  have hsorted : List.Pairwise StrLe (sortedTaskNames tf) :=
    @List.sorted_insertionSort _ StrLe _ strLe_isTotal strLe_isTrans (tf.Tasks.map Prod.fst)
  refine ⟨hout1, hout1 ▸ hsorted, ?_, hout2⟩
  intro hnd
  have hnd2 : (sortedTaskNames tf).Nodup :=
    (List.perm_insertionSort StrLe (tf.Tasks.map Prod.fst)).nodup_iff.mpr hnd
  rw [hout1]
  exact hsorted.and hnd2

/-- Witness for C2 (amended) at a concrete two-task document. -/
theorem claim2_emission_order_witness :
    taskIconsOf tfTwoTasksDoc = sortedTaskNames tfTwoTasks
    ∧ List.Pairwise StrLe (taskIconsOf tfTwoTasksDoc)
    ∧ ((tfTwoTasks.Tasks.map Prod.fst).Nodup →
        List.Pairwise (fun a b => StrLe a b ∧ a ≠ b) (taskIconsOf tfTwoTasksDoc))
    ∧ includeIconsOf tfTwoTasksDoc = tfTwoTasks.GetIncludes :=
  claim2_emission_order [] tfTwoTasks tfTwoTasksDoc tfTwoTasksMemo rfl

/-- C10 counterexample: the classification memo is a module-global that is
NOT discarded after a run.  A first translation of `tfNsDeclared` leaves
("ns", ["sub"]) in the global; a second invocation on a document that calls
`ns:sub` without declaring `ns` then succeeds (the stale entry hides the nil
map), whereas the same invocation in a fresh process panics — so a second
run does not start from an empty memo and its outcome depends on the pairs
annotated by earlier runs. -/
theorem claim10_counterexample :
    memoPart (TaskfileToD2Core [] tfNsDeclared) = some [("ns", ["sub"])]
    ∧ errPart (TaskfileToD2Core [("ns", ["sub"])] tfBadNs) = none
    ∧ errPart (TaskfileToD2Core [] tfBadNs) = some .panicNilMapWrite :=
  ⟨rfl, rfl, rfl⟩

/-- C10 (amended): the memo is a process-global that persists across runs,
but each run re-initializes the entries of its own declared includes; hence
when every namespaced call of the document targets a declared include, the
emitted statements and the error outcome of a run do not depend on the memo
contents left behind by earlier runs. -/
theorem claim10_memo_reinitialized (tf : Taskfile) (m : Memo)
    (hdecl : ∀ c ∈ runCallsOf tf, hasColon c.TaskName = true →
      nsOf c.TaskName ∈ tf.Includes) :
    corePart (TaskfileToD2Core m tf) = corePart (TaskfileToD2Core [] tf)
    ∧ errPart (TaskfileToD2Core m tf) = errPart (TaskfileToD2Core [] tf) := by
  by_cases hv : tf.Version = "3"
  · have hrel : StRel tf.Includes (initIncludes (headerState m) tf.GetIncludes)
        (initIncludes (headerState []) tf.GetIncludes) := by
      rw [initIncludes_spec, initIncludes_spec]
      refine ⟨rfl, rfl, ?_⟩
      intro k hk
      show List.lookup k (memoInit tf.GetIncludes (headerState m).memo)
          = List.lookup k (memoInit tf.GetIncludes (headerState []).memo)
      rw [lookup_memoInit_mem (show k ∈ tf.GetIncludes from hk),
        lookup_memoInit_mem (show k ∈ tf.GetIncludes from hk)]
    rcases @runTasks_parallel _ tf (sortedTaskNames tf) _ _ hrel
        (fun n hn c hc' => hdecl c (List.mem_flatMap.mpr ⟨n, hn, hc'⟩)) with
      ⟨e, he1, he2⟩ | ⟨s1, s2, ho1, ho2, hcnt, hout, hag⟩
    · unfold TaskfileToD2Core
      simp only [hv, if_true]
      rw [he1, he2]
      constructor <;> rfl
    · unfold TaskfileToD2Core
      simp only [hv, if_true]
      rw [ho1, ho2]
      simp [Except.map, corePart, errPart, hout]
  · unfold TaskfileToD2Core
    simp only [hv, Bool.false_eq_true, if_false]
    constructor <;> trivial

/-- Witness for C10 (amended): a stale memo entry for an unrelated namespace
does not change the run on the example document. -/
theorem claim10_memo_reinitialized_witness :
    corePart (TaskfileToD2Core [("other", ["z"])] tfNsDeclared)
      = corePart (TaskfileToD2Core [] tfNsDeclared)
    ∧ errPart (TaskfileToD2Core [("other", ["z"])] tfNsDeclared)
      = errPart (TaskfileToD2Core [] tfNsDeclared) :=
  claim10_memo_reinitialized tfNsDeclared [("other", ["z"])] (by decide)

set_option maxRecDepth 8000 in
/-- C1 counterexample: two documents parsed from the same input bytes (same
mapping, the includes differing only in Go's map iteration order) render
different texts even after normalizing the generated identifiers away: the
include-icon lines appear in iteration order. -/
theorem claim1_counterexample :
    (tfIncludesAB.Version = tfIncludesBA.Version
      ∧ tfIncludesAB.Includes.Perm tfIncludesBA.Includes
      ∧ tfIncludesAB.Vars = tfIncludesBA.Vars
      ∧ tfIncludesAB.Tasks = tfIncludesBA.Tasks)
    ∧ normalizedText tfIncludesAB ≠ normalizedText tfIncludesBA := by
  refine ⟨⟨rfl, List.Perm.swap "b" "a" [], rfl, rfl⟩, ?_⟩
  intro h
  have h2 : renderDoc canonGen docIncludesAB = renderDoc canonGen docIncludesBA :=
    Option.some.inj h
  have e1 : docIncludesAB = Stmt.varsDecl :: Stmt.legend 0 :: tailIncludesAB := rfl
  have e2 : docIncludesBA = Stmt.varsDecl :: Stmt.legend 0 :: tailIncludesBA := rfl
  rw [e1, e2, renderDoc_cons, renderDoc_cons] at h2
  have h3 := str_append_cancel_left h2
  rw [List.map_cons, List.map_cons, restCat_cons, restCat_cons] at h3
  have h4 := str_append_cancel_left h3
  exact absurd h4 (by decide)

/-- C1 (amended): for one parsed document (hence one includes iteration
order) in a fresh process, two invocations differ only in the generated
unique identifiers: both rendered texts are instantiations of one and the
same statement skeleton, so normalizing the identifiers away yields
identical text. -/
theorem claim1_deterministic_up_to_ids (tf : Taskfile) (g1 g2 : Nat → String)
    (t1 t2 : String) (h1 : TaskfileToD2 [] tf g1 = .ok t1)
    (h2 : TaskfileToD2 [] tf g2 = .ok t2) :
    ∃ doc m, TaskfileToD2Core [] tf = .ok (doc, m)
      ∧ t1 = renderDoc g1 doc ∧ t2 = renderDoc g2 doc := by
  unfold TaskfileToD2 at h1 h2
  obtain ⟨p1, hp1, he1⟩ := map_ok_inv h1
  obtain ⟨p2, hp2, he2⟩ := map_ok_inv h2
  have hp : p1 = p2 := by
    rw [hp1] at hp2
    exact (Except.ok.injEq _ _).mp hp2
  subst hp
  exact ⟨p1.1, p1.2, by rw [← hp1], he1, he2⟩

/-- Witness for C1 (amended) at a concrete document and two generators. -/
theorem claim1_deterministic_up_to_ids_witness :
    ∃ doc m, TaskfileToD2Core [] tfOneInclude = .ok (doc, m)
      ∧ renderDoc genU tfOneIncludeDoc = renderDoc genU doc
      ∧ renderDoc genV tfOneIncludeDoc = renderDoc genV doc :=
  claim1_deterministic_up_to_ids tfOneInclude genU genV
    (renderDoc genU tfOneIncludeDoc) (renderDoc genV tfOneIncludeDoc) rfl rfl

/-- C6: each successful `EncapsulatePassedVars` call appends exactly the
spec's statement block — one labeled edge when no variables are passed,
otherwise the fresh "With" parallelogram container, the edge into it with the
first label, the edge out of it with the second label, and per variable (in
the order of the call's bindings) the variable-icon node, the text node
holding the escaped verbose value rendering and the "set to" edge with
consecutive fresh value identifiers (`encSeg`/`varSeg`) — followed by at most
one unknown-task icon statement from classification; and the bindings of
every dependency or inline call are sorted by variable name. -/
theorem claim6_call_emission :
    (∀ (tf : Taskfile) (st : RunState) (tn : String) (c : TaskCall) (fv sv : String)
      (st' : RunState), EncapsulatePassedVars tf st tn c fv sv = .ok st' →
      ∃ trailing, (trailing = [] ∨ ∃ dst, trailing = [Stmt.unknownIcon dst]) ∧
        st'.out = st.out ++ encSeg st.cnt tn c fv sv ++ trailing)
    ∧ (∀ (t : Task) (deps : List TaskCall), t.GetDepCalls = .ok deps →
        ∀ cc ∈ deps, List.Pairwise StrLe (cc.Vars.map Variable.Name))
    ∧ (∀ (t : Task) (calls : List TaskCall), t.GetCalls = .ok calls →
        ∀ cc ∈ calls, List.Pairwise StrLe (cc.Vars.map Variable.Name)) := by
  refine ⟨?_, ?_, ?_⟩
  · intro tf st tn c fv sv st' h
    rcases enc_ok_cases h with ⟨_, subs, _, ⟨_, rfl⟩ | ⟨_, rfl⟩⟩ | ⟨_, ⟨_, rfl⟩ | ⟨_, rfl⟩⟩
    · exact ⟨[], Or.inl rfl, by simp⟩
    · exact ⟨[.unknownIcon (replaceColons c.TaskName)], Or.inr ⟨_, rfl⟩, by simp⟩
    · exact ⟨[], Or.inl rfl, by simp⟩
    · exact ⟨[.unknownIcon c.TaskName], Or.inr ⟨_, rfl⟩, by simp⟩
  · intro t deps hdeps cc hcc
    obtain ⟨d, _, hd⟩ := mapE_ok_mem hdeps hcc
    rcases depCallOfEntry_vars hd with hv | ⟨mm, hv⟩
    · simp [hv]
    · rw [hv]
      exact varsFromMap_names_sorted mm
  · intro t calls hcalls cc hcc
    unfold Task.GetCalls at hcalls
    obtain ⟨cmds, _, hc2⟩ := map_ok_inv hcalls
    rw [hc2] at hcc
    obtain ⟨cmd, _, hcmd⟩ := List.mem_filterMap.mp hcc
    rcases callOfCmd_vars hcmd with hv | ⟨mm, hv⟩
    · simp [hv]
    · rw [hv]
      exact varsFromMap_names_sorted mm

/-- Witness for C6 at a concrete variable-passing call and tasks. -/
theorem claim6_call_emission_witness :
    (∃ trailing, (trailing = [] ∨ ∃ dst, trailing = [Stmt.unknownIcon dst]) ∧
      encExResult.out = encExState.out ++ encSeg encExState.cnt "t" encExCall "f" "s" ++ trailing)
    ∧ List.Pairwise StrLe ((taskDepVarsCalls.headD ⟨"", []⟩).Vars.map Variable.Name)
    ∧ List.Pairwise StrLe ((taskCallVarsCalls.headD ⟨"", []⟩).Vars.map Variable.Name) :=
  ⟨claim6_call_emission.1 tfEmpty encExState "t" encExCall "f" "s" encExResult rfl,
   claim6_call_emission.2.1 taskDepVars taskDepVarsCalls rfl _ (by exact List.Mem.head _),
   claim6_call_emission.2.2 taskCallVars taskCallVarsCalls rfl _ (by exact List.Mem.head _)⟩

end Taskfile2d2

